import Mathlib

set_option linter.unusedSectionVars false

/-!
Shallow embedding of the slot-based inventory engine of the
`game_features` crate (`src/inventory.rs`, with `ItemInstance` from
`src/item.rs`), together with proofs about the frozen claims.

Conventions of the embedding:
* Rust `usize` is modelled as `Nat`; subtraction sites in the source are
  guarded by the checks the source performs, so `Nat` truncation is never
  reached on the paths the theorems describe.
* `&mut self` methods are modelled as functions returning the result value
  together with the updated inventory.
* Rust panics (`unwrap` on `None`/`Err`, out-of-bounds `Vec` operations,
  the `unreachable` arm of `delete_key`, `expect`) are modelled by an outer
  `Option`: `none` means the call panics, `some` means it returns.
* `Result<T, ItemError>` is `Except (ItemError K U) T`.
* The `HashMap` inside `ItemDefinitions` is modelled by its lookup
  function, the only way the engine consumes it.
-/

/-- A stack of items (`ItemInstance` in `src/item.rs`): item key, stack
quantity, optional durability and custom per-instance user data.
`derive_new` gives `new(key, quantity)` with `durability`/`user_data`
defaulted. -/
structure ItemInstance (K U : Type) where
  key : K
  quantity : Nat
  durability : Option Nat
  user_data : U
  deriving Repr, DecidableEq

/-- `ItemInstance::new(key, quantity)`: durability and user data take
their default values (`None` and `U::default()`). -/
def ItemInstance.new {K U : Type} [Inhabited U] (key : K) (quantity : Nat) :
    ItemInstance K U :=
  ⟨key, quantity, none, default⟩

/-- Static description of one item type (`ItemDefinition` in
`src/item.rs`). -/
structure ItemDefinition (K S D : Type) where
  key : K
  slot_type : S
  name : String
  friendly_name : String
  description : String
  maximum_stack : Option Nat
  maximum_durability : Option Nat
  user_data : D

/-- The catalog mapping keys to definitions (`ItemDefinitions` in
`src/item.rs`). The `HashMap` is modelled by its lookup function. -/
structure ItemDefinitions (K S D : Type) where
  defs : K → Option (ItemDefinition K S D)

/-- `MoveToFrontMode` from `src/inventory.rs`: what happens to a vacated
slot. -/
inductive MoveToFrontMode where
  | None
  | TakeLast
  | Offset
  deriving Repr, DecidableEq

/-- `InventorySizingMode` from `src/inventory.rs`. -/
inductive InventorySizingMode where
  | Fixed (size : Nat)
  | Dynamic (min_size max_size : Nat)
  deriving Repr, DecidableEq

/-- The error taxonomy (`ItemError` in `src/inventory.rs`). -/
inductive ItemError (K U : Type) where
  | StackOverflow (ii : ItemInstance K U)
  | InventoryFull
  | InventoryOverflow (l : List (ItemInstance K U))
  | ItemDestroyed (ii : ItemInstance K U)
  | StackConsumed (ii : ItemInstance K U)
  | SlotOccupied
  | SlotRestricted
  | LockedOriginSlot
  | LockedRemoteSlot
  | SlotEmpty
  | NotEnoughQuantity
  deriving Repr, DecidableEq

/-- The inventory (`Inventory` in `src/inventory.rs`): slot array,
per-slot restrictions, compaction policy and sizing policy. -/
structure Inventory (K S U : Type) where
  content : List (Option (ItemInstance K U))
  slot_restriction : List (Option S)
  move_to_front : MoveToFrontMode
  sizing_mode : InventorySizingMode

variable {K S U D : Type} [DecidableEq K] [DecidableEq U] [Inhabited U]

/-- `Inventory::new_fixed(count)`: `count` empty slots, `count`
unrestricted slot restrictions, `MoveToFrontMode::None`,
`InventorySizingMode::Fixed`. -/
def Inventory.new_fixed (count : Nat) : Inventory K S U :=
  ⟨List.replicate count none, List.replicate count none,
    MoveToFrontMode.None, InventorySizingMode.Fixed count⟩

/-- `Inventory::new_dynamic(minimum, maximum)`: `minimum` empty slots, no
slot restrictions, `MoveToFrontMode::None`,
`InventorySizingMode::Dynamic`. -/
def Inventory.new_dynamic (minimum maximum : Nat) : Inventory K S U :=
  ⟨List.replicate minimum none, [],
    MoveToFrontMode.None, InventorySizingMode.Dynamic minimum maximum⟩

/-- `Inventory::has_space`: Fixed mode scans for an empty slot, Dynamic
mode compares the current length with `max_size`. -/
def Inventory.has_space (inv : Inventory K S U) : Bool :=
  match inv.sizing_mode with
  | .Fixed _ => inv.content.any (fun o => o.isNone)
  | .Dynamic _ max_size => inv.content.length != max_size

/-- Sum of the quantities of the occupied stacks holding `key`
(the iterator chain inside `Inventory::has_quantity`). -/
def sumKey (content : List (Option (ItemInstance K U))) (key : K) : Nat :=
  (((content.filterMap id).filter (fun ii => decide (ii.key = key))).map
    (fun ii => ii.quantity)).sum

/-- `Inventory::has_quantity`: the matching quantities sum to at least
`quantity`. -/
def Inventory.has_quantity (inv : Inventory K S U) (key : K) (quantity : Nat) : Bool :=
  decide (quantity ≤ sumKey inv.content key)

/-- `Vec::swap_remove(idx)`: remove the element at `idx`, moving the last
element into its place; panics (`none`) when `idx` is out of bounds.
Returns the removed element together with the new list. -/
def swapRemove {α : Type} (l : List α) (idx : Nat) : Option (α × List α) :=
  match l[idx]?, l.getLast? with
  | some x, some last => some (x, (l.set idx last).dropLast)
  | _, _ => none

/-- `Inventory::remove_slot`: clear in place (`None` mode), swap-remove
then append an empty slot (`TakeLast`), or shift-remove then append an
empty slot (`Offset`). The outer `Option` is `none` exactly when the
underlying `Vec` operation panics. -/
def Inventory.remove_slot (inv : Inventory K S U) (idx : Nat) :
    Option (Option (ItemInstance K U) × Inventory K S U) :=
  match inv.move_to_front with
  | .None =>
      some (inv.content.getD idx none,
        { inv with content := inv.content.set idx none })
  | .TakeLast =>
      (swapRemove inv.content idx).map
        (fun p => (p.1, { inv with content := p.2 ++ [none] }))
  | .Offset =>
      match inv.content[idx]? with
      | some x =>
          some (x, { inv with content := inv.content.eraseIdx idx ++ [none] })
      | none => none

/-- `Inventory::delete(idx, quantity)`: subtract `quantity` from the
stack at `idx`, returning a fresh stack with the source key and
durability (and default user data); removes the slot when the remaining
quantity reaches zero. -/
def Inventory.delete (inv : Inventory K S U) (idx quantity : Nat) :
    Option (Except (ItemError K U) (ItemInstance K U) × Inventory K S U) :=
  match inv.content[idx]? with
  | some (some ii) =>
      if quantity ≤ ii.quantity then
        let newQty := ii.quantity - quantity
        let ret : ItemInstance K U :=
          { key := ii.key, quantity := quantity, durability := ii.durability,
            user_data := default }
        let inv1 : Inventory K S U :=
          { inv with content := inv.content.set idx (some { ii with quantity := newQty }) }
        if newQty = 0 then
          (inv1.remove_slot idx).map (fun p => (.ok ret, p.2))
        else
          some (.ok ret, inv1)
      else
        some (.error .NotEnoughQuantity, inv)
  | _ => some (.error .SlotEmpty, inv)

/-- `Inventory::delete_stack(idx)`: delete the whole current quantity of
the stack at `idx`. -/
def Inventory.delete_stack (inv : Inventory K S U) (idx : Nat) :
    Option (Except (ItemError K U) (ItemInstance K U) × Inventory K S U) :=
  match inv.content[idx]? with
  | some (some ii) => inv.delete idx ii.quantity
  | _ => some (.error .SlotEmpty, inv)

/-- `Inventory::consume(idx)`: decrement the stack quantity; on reaching
zero, delete the (already zeroed) stack and fail with `StackConsumed`. -/
def Inventory.consume (inv : Inventory K S U) (idx : Nat) :
    Option (Except (ItemError K U) Nat × Inventory K S U) :=
  match inv.content[idx]? with
  | some (some ii) =>
      let q := ii.quantity - 1
      let inv1 : Inventory K S U :=
        { inv with content := inv.content.set idx (some { ii with quantity := q }) }
      if q = 0 then
        match inv1.delete_stack idx with
        | some (.ok removed, inv2) => some (.error (.StackConsumed removed), inv2)
        | some (.error e, inv2) => some (.error e, inv2)
        | none => none
      else
        some (.ok q, inv1)
  | _ => some (.error .SlotEmpty, inv)

/-- `Inventory::use_item(idx)`: decrement durability, destroying the
stack when it is already zero. -/
def Inventory.use_item (inv : Inventory K S U) (idx : Nat) :
    Option (Except (ItemError K U) (Option Nat) × Inventory K S U) :=
  match inv.content[idx]? with
  | some (some ii) =>
      match ii.durability with
      | some d =>
          if d = 0 then
            match inv.delete_stack idx with
            | some (.ok removed, inv2) => some (.error (.ItemDestroyed removed), inv2)
            | some (.error e, inv2) => some (.error e, inv2)
            | none => none
          else
            some (.ok (some (d - 1)),
              { inv with content :=
                  inv.content.set idx (some { ii with durability := some (d - 1) }) })
      | none => some (.ok none, inv)
  | _ => some (.error .SlotEmpty, inv)

/-- Modelled from the spec: `ItemInstance::merge` is called by
`Inventory::insert` (`src/inventory.rs`) but its definition is not under
`src/`. Following the spec (sections 3 and 4.1): two stacks merge only
when `key` and `user_data` are equal, otherwise the call is a silent
no-op; the amount moved from the donor `other` into the recipient `self`
is `min(maximum_stack - self.quantity, other.quantity)` when the item
definition carries a stack cap (natural subtraction: a recipient already
at or above the cap receives nothing), else all of the donor's quantity;
a key without a catalog entry has no known cap. Returns the updated
`(self, other)` pair. -/
def ItemInstance.merge (self other : ItemInstance K U)
    (item_defs : ItemDefinitions K S D) : ItemInstance K U × ItemInstance K U :=
  if self.key = other.key ∧ self.user_data = other.user_data then
    let moved :=
      match (item_defs.defs self.key).bind (fun d => d.maximum_stack) with
      | some cap => min (cap - self.quantity) other.quantity
      | none => other.quantity
    ({ self with quantity := self.quantity + moved },
     { other with quantity := other.quantity - moved })
  else
    (self, other)

/-- The `for inst in self.get_key_mut(&item.key)` loop at the top of
`Inventory::insert`: walk the slots in index order; at each occupied slot
whose key matches the incoming item, stop if the incoming quantity is
already zero (the `break`), otherwise merge the incoming stack into the
slot. Returns the updated content and the remaining incoming stack. -/
def mergeLoop (content : List (Option (ItemInstance K U)))
    (item : ItemInstance K U) (item_defs : ItemDefinitions K S D) :
    List (Option (ItemInstance K U)) × ItemInstance K U :=
  match content with
  | [] => ([], item)
  | none :: rest =>
      let p := mergeLoop rest item item_defs
      (none :: p.1, p.2)
  | some ii :: rest =>
      if ii.key = item.key then
        if item.quantity = 0 then (some ii :: rest, item)
        else
          let m := ItemInstance.merge ii item item_defs
          let p := mergeLoop rest m.2 item_defs
          (some m.1 :: p.1, p.2)
      else
        let p := mergeLoop rest item item_defs
        (some ii :: p.1, p.2)

/-- The `content.iter().enumerate().find(|t| t.1.is_none()).map(|t| t.0)`
scan in `Inventory::first_empty_slot`, with `i` the index of the first
element of `content`. -/
def firstNoneFrom (content : List (Option (ItemInstance K U))) (i : Nat) :
    Option Nat :=
  match content with
  | [] => none
  | none :: _ => some i
  | some _ :: rest => firstNoneFrom rest (i + 1)

/-- `Inventory::first_empty_slot`: under `None`, scan for a hole; under
`TakeLast`/`Offset`, the index just past the current length, when the
length differs from the sizing maximum. -/
def Inventory.first_empty_slot (inv : Inventory K S U) : Option Nat :=
  match inv.move_to_front with
  | .None => firstNoneFrom inv.content 0
  | .TakeLast | .Offset =>
      let max :=
        match inv.sizing_mode with
        | .Fixed size => size
        | .Dynamic _ max_size => max_size
      if inv.content.length ≠ max then some inv.content.length else none

/-- `Inventory::insert_into(idx, item)`: fails with `SlotOccupied` on an
occupied slot, writes the item into an empty slot, panics (`none`) past
the end of `content`. -/
def Inventory.insert_into (inv : Inventory K S U) (idx : Nat)
    (item : ItemInstance K U) (_item_defs : ItemDefinitions K S D) :
    Option (Except (ItemError K U) Unit × Inventory K S U) :=
  match inv.content[idx]? with
  | some (some _) => some (.error .SlotOccupied, inv)
  | some none => some (.ok (), { inv with content := inv.content.set idx (some item) })
  | none => none

/-- `Inventory::insert(item)`: merge into matching stacks first; if a
residual quantity remains, insert it into the first empty slot, growing a
Dynamic inventory by one slot when possible, else fail with
`InventoryFull`. The `unwrap` on the inner `insert_into` panics (`none`)
when that call fails. -/
def Inventory.insert (inv : Inventory K S U) (item : ItemInstance K U)
    (item_defs : ItemDefinitions K S D) :
    Option (Except (ItemError K U) Unit × Inventory K S U) :=
  let p := mergeLoop inv.content item item_defs
  let inv1 : Inventory K S U := { inv with content := p.1 }
  if p.2.quantity = 0 then some (.ok (), inv1)
  else
    match inv1.first_empty_slot with
    | some slot =>
        match inv1.insert_into slot p.2 item_defs with
        | some (.ok _, inv2) => some (.ok (), inv2)
        | some (.error _, _) => none
        | none => none
    | none =>
        match inv1.sizing_mode with
        | .Fixed _ => some (.error .InventoryFull, inv1)
        | .Dynamic _ _ =>
            if inv1.has_space then
              let inv2 : Inventory K S U := { inv1 with content := inv1.content ++ [none] }
              match inv2.insert_into (inv2.content.length - 1) p.2 item_defs with
              | some (.ok _, inv3) => some (.ok (), inv3)
              | some (.error _, _) => none
              | none => none
            else
              some (.error .InventoryFull, inv1)

/-- The `content.iter().enumerate().filter(..).map(|(idx, _)| idx)` chain
of `Inventory::delete_key`: indices of the occupied slots whose key
matches, with `i` the index of the first element of `content`. -/
def matchingIndicesFrom (content : List (Option (ItemInstance K U)))
    (key : K) (i : Nat) : List Nat :=
  match content with
  | [] => []
  | o :: rest =>
      (match o with
       | some ii => if ii.key = key then [i] else []
       | none => []) ++ matchingIndicesFrom rest key (i + 1)

/-- The `for idx in ...` loop of `Inventory::delete_key`, walking the
pre-computed index list. Reading an out-of-range or empty slot, a failing
inner `delete` (both `unwrap`/`expect` panics) and running off the end of
the list (the `unreachable` arm) are all `none`. -/
def deleteKeyLoop (inv : Inventory K S U) (key : K) (idxs : List Nat)
    (remaining quantity : Nat) :
    Option (Except (ItemError K U) (ItemInstance K U) × Inventory K S U) :=
  match idxs with
  | [] => none
  | idx :: rest =>
      match inv.content[idx]? with
      | some (some ii) =>
          let avail := ii.quantity
          let rm := if remaining ≤ avail then remaining else avail
          let remaining2 := remaining - rm
          match inv.delete idx rm with
          | some (.ok _, inv2) =>
              if remaining2 = 0 then
                some (.ok (ItemInstance.new key quantity), inv2)
              else
                deleteKeyLoop inv2 key rest remaining2 quantity
          | _ => none
      | _ => none

/-- `Inventory::delete_key(key, quantity)`: fail fast with
`NotEnoughQuantity` when the matching stacks sum below `quantity`, else
drain the pre-computed matching indices. -/
def Inventory.delete_key (inv : Inventory K S U) (key : K) (quantity : Nat) :
    Option (Except (ItemError K U) (ItemInstance K U) × Inventory K S U) :=
  if inv.has_quantity key quantity then
    deleteKeyLoop inv key (matchingIndicesFrom inv.content key 0) quantity quantity
  else
    some (.error .NotEnoughQuantity, inv)

/-- `Inventory::transfer`: delete from this inventory, then insert into
the target slot; an error of either step is propagated with `?`, leaving
the partial mutation in place. -/
def Inventory.transfer (inv : Inventory K S U) (from_idx : Nat)
    (target : Inventory K S U) (to_idx quantity : Nat)
    (_with_overflow : Bool) (item_defs : ItemDefinitions K S D) :
    Option (Except (ItemError K U) Unit × Inventory K S U × Inventory K S U) :=
  match inv.delete from_idx quantity with
  | some (.ok mv, inv1) =>
      match target.insert_into to_idx mv item_defs with
      | some (.ok _, target1) => some (.ok (), inv1, target1)
      | some (.error e, target1) => some (.error e, inv1, target1)
      | none => none
  | some (.error e, inv1) => some (.error e, inv1, target)
  | none => none

/-- `Inventory::transfer_stack`: transfer the whole current quantity of
the source slot. -/
def Inventory.transfer_stack (inv : Inventory K S U) (from_idx : Nat)
    (target : Inventory K S U) (to_idx : Nat) (with_overflow : Bool)
    (item_defs : ItemDefinitions K S D) :
    Option (Except (ItemError K U) Unit × Inventory K S U × Inventory K S U) :=
  match inv.content[from_idx]? with
  | some (some ii) =>
      inv.transfer from_idx target to_idx ii.quantity with_overflow item_defs
  | _ => some (.error .SlotEmpty, inv, target)

/-- `Inventory::move_item`: delete then insert back into this
inventory. -/
def Inventory.move_item (inv : Inventory K S U) (from_idx to_idx quantity : Nat)
    (_with_overflow : Bool) (item_defs : ItemDefinitions K S D) :
    Option (Except (ItemError K U) Unit × Inventory K S U) :=
  match inv.delete from_idx quantity with
  | some (.ok mv, inv1) =>
      match inv1.insert_into to_idx mv item_defs with
      | some (.ok _, inv2) => some (.ok (), inv2)
      | some (.error e, inv2) => some (.error e, inv2)
      | none => none
  | some (.error e, inv1) => some (.error e, inv1)
  | none => none

/-- `Inventory::move_stack`: move the whole current quantity of the
source slot. -/
def Inventory.move_stack (inv : Inventory K S U) (from_idx to_idx : Nat)
    (with_overflow : Bool) (item_defs : ItemDefinitions K S D) :
    Option (Except (ItemError K U) Unit × Inventory K S U) :=
  match inv.content[from_idx]? with
  | some (some ii) =>
      inv.move_item from_idx to_idx ii.quantity with_overflow item_defs
  | _ => some (.error .SlotEmpty, inv)

/-- Spec-side description of `delete_key`'s successful drain under
`MoveToFrontMode::None` (spec section 4.3): walk the slots in index
order; drain each matching slot fully (leaving a hole in place) while
more than its quantity is still needed, partially drain the last slot
touched when it has more than needed, and leave everything after the
point of satisfaction untouched. -/
def drainContent (content : List (Option (ItemInstance K U))) (key : K)
    (remaining : Nat) : List (Option (ItemInstance K U)) :=
  match content with
  | [] => []
  | none :: rest => none :: drainContent rest key remaining
  | some ii :: rest =>
      if ii.key = key ∧ remaining ≠ 0 then
        if ii.quantity < remaining then
          none :: drainContent rest key (remaining - ii.quantity)
        else if remaining < ii.quantity then
          some { ii with quantity := ii.quantity - remaining } :: rest
        else
          none :: rest
      else
        some ii :: drainContent rest key remaining

/-- The sizing invariant of spec sections 3 and 8: the slot count equals
`size` under Fixed sizing; under Dynamic sizing it is at least
`min_size`, and at most `max_size` whenever the two bounds are
consistent. -/
def lenOk (inv : Inventory K S U) : Prop :=
  match inv.sizing_mode with
  | .Fixed size => inv.content.length = size
  | .Dynamic min_size max_size =>
      min_size ≤ inv.content.length ∧
        (min_size ≤ max_size → inv.content.length ≤ max_size)

/-- Every occupied slot holds a positive quantity (spec section 3:
a stack with quantity 0 must not exist). -/
def posContent (content : List (Option (ItemInstance K U))) : Prop :=
  ∀ (i : Nat) (ii : ItemInstance K U), content[i]? = some (some ii) → 0 < ii.quantity

/-- The inventories reachable from the two constructors by the engine's
mutating operations. A step exists only when the operation returns
(panicking runs produce no successor state); error returns count, since
they too leave the inventory behind. When `insPos` is set, stacks handed
to `insert`/`insert_into` carry a positive quantity; when `movePos` is
set, the quantity arguments of `transfer`/`move_item` are positive. -/
inductive Reachable (insPos movePos : Bool) : Inventory K S U → Prop where
  | new_fixed (count : Nat) :
      Reachable insPos movePos (Inventory.new_fixed count)
  | new_dynamic (minimum maximum : Nat) :
      Reachable insPos movePos (Inventory.new_dynamic minimum maximum)
  | step_insert {inv inv' : Inventory K S U} {r} (D : Type)
      (defs : ItemDefinitions K S D) (item : ItemInstance K U)
      (hp : insPos = true → 0 < item.quantity)
      (h : Reachable insPos movePos inv)
      (hs : inv.insert item defs = some (r, inv')) :
      Reachable insPos movePos inv'
  | step_insert_into {inv inv' : Inventory K S U} {r} (D : Type)
      (defs : ItemDefinitions K S D) (idx : Nat) (item : ItemInstance K U)
      (hp : insPos = true → 0 < item.quantity)
      (h : Reachable insPos movePos inv)
      (hs : inv.insert_into idx item defs = some (r, inv')) :
      Reachable insPos movePos inv'
  | step_delete {inv inv' : Inventory K S U} {r} (idx quantity : Nat)
      (h : Reachable insPos movePos inv)
      (hs : inv.delete idx quantity = some (r, inv')) :
      Reachable insPos movePos inv'
  | step_delete_stack {inv inv' : Inventory K S U} {r} (idx : Nat)
      (h : Reachable insPos movePos inv)
      (hs : inv.delete_stack idx = some (r, inv')) :
      Reachable insPos movePos inv'
  | step_delete_key {inv inv' : Inventory K S U} {r} (key : K) (quantity : Nat)
      (h : Reachable insPos movePos inv)
      (hs : inv.delete_key key quantity = some (r, inv')) :
      Reachable insPos movePos inv'
  | step_consume {inv inv' : Inventory K S U} {r} (idx : Nat)
      (h : Reachable insPos movePos inv)
      (hs : inv.consume idx = some (r, inv')) :
      Reachable insPos movePos inv'
  | step_use_item {inv inv' : Inventory K S U} {r} (idx : Nat)
      (h : Reachable insPos movePos inv)
      (hs : inv.use_item idx = some (r, inv')) :
      Reachable insPos movePos inv'
  | step_transfer_src {inv tgt inv' tgt' : Inventory K S U} {r} (D : Type)
      (defs : ItemDefinitions K S D) (from_idx to_idx quantity : Nat) (b : Bool)
      (hp : movePos = true → 0 < quantity)
      (h1 : Reachable insPos movePos inv) (h2 : Reachable insPos movePos tgt)
      (hs : inv.transfer from_idx tgt to_idx quantity b defs = some (r, inv', tgt')) :
      Reachable insPos movePos inv'
  | step_transfer_tgt {inv tgt inv' tgt' : Inventory K S U} {r} (D : Type)
      (defs : ItemDefinitions K S D) (from_idx to_idx quantity : Nat) (b : Bool)
      (hp : movePos = true → 0 < quantity)
      (h1 : Reachable insPos movePos inv) (h2 : Reachable insPos movePos tgt)
      (hs : inv.transfer from_idx tgt to_idx quantity b defs = some (r, inv', tgt')) :
      Reachable insPos movePos tgt'
  | step_transfer_stack_src {inv tgt inv' tgt' : Inventory K S U} {r} (D : Type)
      (defs : ItemDefinitions K S D) (from_idx to_idx : Nat) (b : Bool)
      (h1 : Reachable insPos movePos inv) (h2 : Reachable insPos movePos tgt)
      (hs : inv.transfer_stack from_idx tgt to_idx b defs = some (r, inv', tgt')) :
      Reachable insPos movePos inv'
  | step_transfer_stack_tgt {inv tgt inv' tgt' : Inventory K S U} {r} (D : Type)
      (defs : ItemDefinitions K S D) (from_idx to_idx : Nat) (b : Bool)
      (h1 : Reachable insPos movePos inv) (h2 : Reachable insPos movePos tgt)
      (hs : inv.transfer_stack from_idx tgt to_idx b defs = some (r, inv', tgt')) :
      Reachable insPos movePos tgt'
  | step_move_item {inv inv' : Inventory K S U} {r} (D : Type)
      (defs : ItemDefinitions K S D) (from_idx to_idx quantity : Nat) (b : Bool)
      (hp : movePos = true → 0 < quantity)
      (h : Reachable insPos movePos inv)
      (hs : inv.move_item from_idx to_idx quantity b defs = some (r, inv')) :
      Reachable insPos movePos inv'
  | step_move_stack {inv inv' : Inventory K S U} {r} (D : Type)
      (defs : ItemDefinitions K S D) (from_idx to_idx : Nat) (b : Bool)
      (h : Reachable insPos movePos inv)
      (hs : inv.move_stack from_idx to_idx b defs = some (r, inv')) :
      Reachable insPos movePos inv'

/-- An empty catalog, used by the concrete witness computations. -/
def emptyDefs : ItemDefinitions Nat Unit Unit := ⟨fun _ => none⟩

/-- A catalog with a single entry for key 1 capping stacks at 10, used by
the concrete witness computations. -/
def cappedDefs : ItemDefinitions Nat Unit Nat :=
  ⟨fun k => if k = 1 then
      some ⟨1, (), "", "", "", some 10, none, 0⟩
    else none⟩

theorem getElem?_some_lt {α : Type} {l : List α} {i : Nat} {x : α}
    (h : l[i]? = some x) : i < l.length := by
  by_contra hlt
  rw [List.getElem?_eq_none (Nat.le_of_not_lt hlt)] at h
  exact Option.noConfusion h

theorem remove_slot_isSome {inv : Inventory K S U} {idx : Nat}
    (h : idx < inv.content.length) :
    ∃ p, inv.remove_slot idx = some p := by
  unfold Inventory.remove_slot
  match hm : inv.move_to_front with
  | .None => exact ⟨_, rfl⟩
  | .TakeLast =>
      have h1 : ∃ x, inv.content[idx]? = some x := ⟨_, List.getElem?_eq_getElem h⟩
      have h2 : ∃ y, inv.content.getLast? = some y := by
        rw [List.getLast?_eq_getElem?]
        exact ⟨_, List.getElem?_eq_getElem (by omega)⟩
      obtain ⟨x, hx⟩ := h1
      obtain ⟨y, hy⟩ := h2
      simp only [swapRemove, hx, hy]
      exact ⟨_, rfl⟩
  | .Offset =>
      have h1 : ∃ x, inv.content[idx]? = some x := ⟨_, List.getElem?_eq_getElem h⟩
      obtain ⟨x, hx⟩ := h1
      simp only [hx]
      exact ⟨_, rfl⟩


theorem delete_ok {inv : Inventory K S U} {idx q : Nat} {ii : ItemInstance K U}
    (h : inv.content[idx]? = some (some ii)) (hq : q ≤ ii.quantity) :
    ∃ inv', inv.delete idx q =
      some (.ok ⟨ii.key, q, ii.durability, (default : U)⟩, inv') := by
  simp only [Inventory.delete, h, if_pos hq]
  by_cases h0 : ii.quantity - q = 0
  · rw [if_pos h0]
    have hlen : idx < (inv.content.set idx
        (some { ii with quantity := ii.quantity - q })).length := by
      rw [List.length_set]; exact getElem?_some_lt h
    obtain ⟨p, hp⟩ := @remove_slot_isSome K S U _ _ _
      { inv with content := inv.content.set idx (some { ii with quantity := ii.quantity - q }) }
      idx hlen
    rw [hp]
    exact ⟨_, rfl⟩
  · rw [if_neg h0]
    exact ⟨_, rfl⟩

theorem insert_into_ok_slot {inv inv' : Inventory K S U} {idx : Nat}
    {item : ItemInstance K U} {defs : ItemDefinitions K S D} {u : Unit}
    (h : inv.insert_into idx item defs = some (.ok u, inv')) :
    inv'.content[idx]? = some (some item) := by
  match hc : inv.content[idx]? with
  | some (some x) => simp [Inventory.insert_into, hc] at h
  | some none =>
      simp only [Inventory.insert_into, hc, Option.some.injEq, Prod.mk.injEq] at h
      rw [← h.2]
      exact List.getElem?_set_self (getElem?_some_lt hc)
  | none => simp [Inventory.insert_into, hc] at h

theorem transfer_deposits_default {inv tgt inv1 tgt1 : Inventory K S U}
    {idx q to_idx : Nat} {b : Bool} {defs : ItemDefinitions K S D}
    {ii : ItemInstance K U}
    (h : inv.content[idx]? = some (some ii)) (hq : q ≤ ii.quantity)
    (ht : inv.transfer idx tgt to_idx q b defs = some (.ok (), inv1, tgt1)) :
    tgt1.content[to_idx]? =
      some (some ⟨ii.key, q, ii.durability, (default : U)⟩) := by
  obtain ⟨inv2, h1⟩ := delete_ok h hq
  simp only [Inventory.transfer, h1] at ht
  match hi : tgt.insert_into to_idx (⟨ii.key, q, ii.durability, (default : U)⟩ :
      ItemInstance K U) defs with
  | some (.ok u, tgt2) =>
      rw [hi] at ht
      simp only [Option.some.injEq, Prod.mk.injEq] at ht
      rw [← ht.2.2]
      exact insert_into_ok_slot hi
  | some (.error e, tgt2) => rw [hi] at ht; simp at ht
  | none => rw [hi] at ht; simp at ht

theorem move_item_deposits_default {inv inv1 : Inventory K S U}
    {idx q to_idx : Nat} {b : Bool} {defs : ItemDefinitions K S D}
    {ii : ItemInstance K U}
    (h : inv.content[idx]? = some (some ii)) (hq : q ≤ ii.quantity)
    (hmv : inv.move_item idx to_idx q b defs = some (.ok (), inv1)) :
    inv1.content[to_idx]? =
      some (some ⟨ii.key, q, ii.durability, (default : U)⟩) := by
  obtain ⟨inv2, h1⟩ := delete_ok h hq
  simp only [Inventory.move_item, h1] at hmv
  match hi : inv2.insert_into to_idx (⟨ii.key, q, ii.durability, (default : U)⟩ :
      ItemInstance K U) defs with
  | some (.ok u, inv3) =>
      rw [hi] at hmv
      simp only [Option.some.injEq, Prod.mk.injEq] at hmv
      rw [← hmv.2]
      exact insert_into_ok_slot hi
  | some (.error e, inv3) => rw [hi] at hmv; simp at hmv
  | none => rw [hi] at hmv; simp at hmv

/-- C9: a successful `delete` returns a stack with the source key, the
requested quantity and the source durability, but the user data reset to
the default value of `U` (the source stack's user data is not copied);
consequently `transfer`, `transfer_stack`, `move_item` and `move_stack`
(which all route the moved stack through `delete`) deposit into the
target slot a stack whose user data has been reset to default. -/
theorem delete_returns_default_user_data (inv : Inventory K S U) (idx q : Nat)
    (ii : ItemInstance K U) (h : inv.content[idx]? = some (some ii))
    (hq : q ≤ ii.quantity) :
    (∃ inv', inv.delete idx q =
        some (.ok ⟨ii.key, q, ii.durability, (default : U)⟩, inv')) ∧
    (∀ (tgt inv' tgt' : Inventory K S U) (b : Bool) (D' : Type)
        (defs : ItemDefinitions K S D') (to_idx : Nat),
      inv.transfer idx tgt to_idx q b defs = some (.ok (), inv', tgt') →
      tgt'.content[to_idx]? =
        some (some ⟨ii.key, q, ii.durability, (default : U)⟩)) ∧
    (∀ (tgt inv' tgt' : Inventory K S U) (b : Bool) (D' : Type)
        (defs : ItemDefinitions K S D') (to_idx : Nat),
      inv.transfer_stack idx tgt to_idx b defs = some (.ok (), inv', tgt') →
      tgt'.content[to_idx]? =
        some (some ⟨ii.key, ii.quantity, ii.durability, (default : U)⟩)) ∧
    (∀ (inv' : Inventory K S U) (b : Bool) (D' : Type)
        (defs : ItemDefinitions K S D') (to_idx : Nat),
      inv.move_item idx to_idx q b defs = some (.ok (), inv') →
      inv'.content[to_idx]? =
        some (some ⟨ii.key, q, ii.durability, (default : U)⟩)) ∧
    (∀ (inv' : Inventory K S U) (b : Bool) (D' : Type)
        (defs : ItemDefinitions K S D') (to_idx : Nat),
      inv.move_stack idx to_idx b defs = some (.ok (), inv') →
      inv'.content[to_idx]? =
        some (some ⟨ii.key, ii.quantity, ii.durability, (default : U)⟩)) := by
  refine ⟨delete_ok h hq, ?_, ?_, ?_, ?_⟩
  · intro tgt inv' tgt' b D' defs to_idx ht
    exact transfer_deposits_default h hq ht
  · intro tgt inv' tgt' b D' defs to_idx ht
    simp only [Inventory.transfer_stack, h] at ht
    exact transfer_deposits_default h (Nat.le_refl _) ht
  · intro inv' b D' defs to_idx hmv
    exact move_item_deposits_default h hq hmv
  · intro inv' b D' defs to_idx hmv
    simp only [Inventory.move_stack, h] at hmv
    exact move_item_deposits_default h (Nat.le_refl _) hmv

/-- Witness for C9 at concrete inputs: the source stack carries user
data 7; the stack returned by `delete` and the stack deposited by
`move_item` both carry user data 0, the default of `U = Nat`. -/
theorem delete_returns_default_user_data_witness :
    (∃ inv', (⟨[some ⟨1, 5, some 3, 7⟩], [], .None, .Fixed 1⟩ :
        Inventory Nat Unit Nat).delete 0 2 =
      some (.ok ⟨1, 2, some 3, 0⟩, inv')) ∧
    (⟨[some ⟨1, 3, some 3, 7⟩, some ⟨1, 2, some 3, 0⟩], [], .None, .Fixed 2⟩ :
        Inventory Nat Unit Nat).content[1]? = some (some ⟨1, 2, some 3, 0⟩) := by
  constructor
  · exact (delete_returns_default_user_data
      (⟨[some ⟨1, 5, some 3, 7⟩], [], .None, .Fixed 1⟩ : Inventory Nat Unit Nat)
      0 2 ⟨1, 5, some 3, 7⟩ rfl (by decide)).1
  · exact (delete_returns_default_user_data
      (⟨[some ⟨1, 5, some 3, 7⟩, none], [], .None, .Fixed 2⟩ : Inventory Nat Unit Nat)
      0 2 ⟨1, 5, some 3, 7⟩ rfl (by decide)).2.2.2.1
      ⟨[some ⟨1, 3, some 3, 7⟩, some ⟨1, 2, some 3, 0⟩], [], .None, .Fixed 2⟩
      false Unit emptyDefs 1 rfl

/-- C10: `consume` on a stack of quantity 1 fails with `StackConsumed`
carrying a stack of quantity 0 — the quantity is decremented before the
slot is deleted, and the carried stack is rebuilt from the already-zeroed
slot, not from the pre-call quantity. -/
theorem consume_last_carries_zero_quantity (inv : Inventory K S U) (idx : Nat)
    (ii : ItemInstance K U) (h : inv.content[idx]? = some (some ii))
    (h1 : ii.quantity = 1) :
    ∃ inv', inv.consume idx =
      some (.error (.StackConsumed ⟨ii.key, 0, ii.durability, (default : U)⟩), inv') := by
  have hlen : idx < inv.content.length := getElem?_some_lt h
  simp only [Inventory.consume, h, h1]
  have hset : (inv.content.set idx (some { ii with quantity := 1 - 1 }))[idx]? =
      some (some { ii with quantity := 1 - 1 }) :=
    List.getElem?_set_self hlen
  simp only [Inventory.delete_stack, hset]
  have hd := @delete_ok K S U _ _ _
    { inv with content := inv.content.set idx (some { ii with quantity := 1 - 1 }) }
    idx ({ ii with quantity := 1 - 1 } : ItemInstance K U).quantity
    { ii with quantity := 1 - 1 } hset (Nat.le_refl _)
  obtain ⟨inv2, hd2⟩ := hd
  simp only [hd2]
  exact ⟨inv2, rfl⟩

/-- Witness for C10 at a concrete input: a stack of one item with
durability 7 is consumed; the carried stack has quantity 0 and the same
durability. -/
theorem consume_last_carries_zero_quantity_witness :
    ∃ inv', (⟨[some ⟨4, 1, some 7, ()⟩], [], .None, .Fixed 1⟩ :
        Inventory Nat Unit Unit).consume 0 =
      some (.error (.StackConsumed ⟨4, 0, some 7, ()⟩), inv') :=
  consume_last_carries_zero_quantity
    (⟨[some ⟨4, 1, some 7, ()⟩], [], .None, .Fixed 1⟩ : Inventory Nat Unit Unit)
    0 ⟨4, 1, some 7, ()⟩ rfl rfl

/-- C7: `has_space` is true under Fixed sizing exactly when some slot of
`content` is empty, and under Dynamic sizing exactly when the current
length differs from `max_size`. -/
theorem has_space_characterization (inv : Inventory K S U) :
    (∀ size, inv.sizing_mode = .Fixed size →
      (inv.has_space = true ↔ ∃ o ∈ inv.content, o = none)) ∧
    (∀ min_size max_size, inv.sizing_mode = .Dynamic min_size max_size →
      (inv.has_space = true ↔ inv.content.length ≠ max_size)) := by
  constructor
  · intro size hs
    simp [Inventory.has_space, hs, List.any_eq_true, Option.isNone_iff_eq_none]
  · intro mn mx hs
    simp [Inventory.has_space, hs]

/-- Witness for C7: a fixed inventory with an empty second slot has
space; a dynamic inventory at its maximum length does not. -/
theorem has_space_characterization_witness :
    (⟨[some ⟨1, 2, none, ()⟩, none], [], .None, .Fixed 2⟩ :
        Inventory Nat Unit Unit).has_space = true ∧
    ¬ (⟨[none], [], .None, .Dynamic 1 1⟩ :
        Inventory Nat Unit Unit).has_space = true := by
  constructor
  · exact ((has_space_characterization
      (⟨[some ⟨1, 2, none, ()⟩, none], [], .None, .Fixed 2⟩ :
        Inventory Nat Unit Unit)).1 2 rfl).mpr ⟨none, by simp, rfl⟩
  · intro hc
    exact ((has_space_characterization
      (⟨[none], [], .None, .Dynamic 1 1⟩ :
        Inventory Nat Unit Unit)).2 1 1 rfl).mp hc rfl

/-- C5: `transfer` is not atomic across the two inventories. Concretely:
the source holds 5 of key 1, the target slot is occupied with 1 of
key 1; transferring 3 deletes them from the source, then fails with
`SlotOccupied` on the target, and the 3 deleted units are in neither
inventory afterwards — the totals drop from 6 to 3. -/
theorem transfer_nonatomic_loses_quantity :
    (Inventory.transfer (K := Nat) (S := Unit) (U := Unit) (D := Unit)
        ⟨[some ⟨1, 5, none, ()⟩], [], .None, .Fixed 1⟩ 0
        ⟨[some ⟨1, 1, none, ()⟩], [], .None, .Fixed 1⟩ 0 3 false emptyDefs)
      = some (.error .SlotOccupied,
          ⟨[some ⟨1, 2, none, ()⟩], [], .None, .Fixed 1⟩,
          ⟨[some ⟨1, 1, none, ()⟩], [], .None, .Fixed 1⟩) ∧
    sumKey [some (⟨1, 5, none, ()⟩ : ItemInstance Nat Unit)] 1 +
      sumKey [some (⟨1, 1, none, ()⟩ : ItemInstance Nat Unit)] 1 = 6 ∧
    sumKey [some (⟨1, 2, none, ()⟩ : ItemInstance Nat Unit)] 1 +
      sumKey [some (⟨1, 1, none, ()⟩ : ItemInstance Nat Unit)] 1 = 6 - 3 :=
  ⟨rfl, rfl, rfl⟩

/-- Counterexample to C6 as stated: under `MoveToFrontMode::TakeLast`,
`use_item` at durability `Some(0)` does remove the stack and fail with
`ItemDestroyed`, but it does not leave the slot Empty — the compaction
policy moves the last stack into the vacated slot, so slot 0 ends up
holding the key-2 stack. -/
theorem use_item_destroyed_slot_not_empty_cex :
    (Inventory.use_item (K := Nat) (S := Unit) (U := Unit)
        ⟨[some ⟨1, 1, some 0, ()⟩, some ⟨2, 3, none, ()⟩], [], .TakeLast, .Fixed 2⟩ 0)
      = some (.error (.ItemDestroyed ⟨1, 1, some 0, ()⟩),
          ⟨[some ⟨2, 3, none, ()⟩, none], [], .TakeLast, .Fixed 2⟩) ∧
    ¬ ([some (⟨2, 3, none, ()⟩ : ItemInstance Nat Unit), none])[0]? = some none :=
  ⟨rfl, by decide⟩

/-- C6 (amended): `use_item` fails with `SlotEmpty` on an empty or
missing slot; returns `Ok(None)` without mutation when the stack tracks
no durability; at durability `Some(0)` removes the whole stack via the
compaction policy and fails with `ItemDestroyed` carrying the removed
stack (so the slot is left Empty under `MoveToFrontMode::None`, while
`TakeLast`/`Offset` may refill it); otherwise decrements the durability
and returns it. -/
theorem use_item_characterization (inv : Inventory K S U) (idx : Nat) :
    ((inv.content[idx]? = none ∨ inv.content[idx]? = some none) →
      inv.use_item idx = some (.error .SlotEmpty, inv)) ∧
    (∀ ii : ItemInstance K U, inv.content[idx]? = some (some ii) →
      ii.durability = none → inv.use_item idx = some (.ok none, inv)) ∧
    (∀ ii : ItemInstance K U, inv.content[idx]? = some (some ii) →
      ii.durability = some 0 →
      ∃ inv', inv.use_item idx =
          some (.error (.ItemDestroyed ⟨ii.key, ii.quantity, some 0, (default : U)⟩), inv') ∧
        (inv.move_to_front = .None → inv'.content = inv.content.set idx none)) ∧
    (∀ (ii : ItemInstance K U) (d : Nat), inv.content[idx]? = some (some ii) →
      ii.durability = some (d + 1) →
      inv.use_item idx = some (.ok (some d),
        { inv with content := inv.content.set idx (some { ii with durability := some d }) })) := by
  refine ⟨?_, ?_, ?_, ?_⟩
  · rintro (he | he) <;> simp [Inventory.use_item, he]
  · intro ii h hd
    simp [Inventory.use_item, h, hd]
  · intro ii h hd
    obtain ⟨inv1, h1⟩ := delete_ok h (Nat.le_refl ii.quantity)
    have hds : inv.delete_stack idx =
        some (.ok (⟨ii.key, ii.quantity, ii.durability, (default : U)⟩ : ItemInstance K U), inv1) := by
      simp only [Inventory.delete_stack, h]
      exact h1
    refine ⟨inv1, ?_, ?_⟩
    · simp [Inventory.use_item, h, hd, hds]
    · intro hmtf
      have h2 : inv.delete idx ii.quantity =
          some (.ok (⟨ii.key, ii.quantity, ii.durability, (default : U)⟩ : ItemInstance K U),
            { inv with content := inv.content.set idx none }) := by
        simp [Inventory.delete, h, Inventory.remove_slot, hmtf, List.set_set]
      rw [h1] at h2
      simp only [Option.some.injEq, Prod.mk.injEq] at h2
      rw [h2.2]
  · intro ii d h hd
    simp [Inventory.use_item, h, hd]

/-- Witness for C6 at concrete inputs, one per behavior: empty slot,
no durability tracking, durability `Some(0)` under `None` compaction,
and a positive durability decrement. -/
theorem use_item_characterization_witness :
    (Inventory.use_item (K := Nat) (S := Unit) (U := Unit)
        ⟨[none], [], .None, .Fixed 1⟩ 0)
      = some (.error .SlotEmpty, ⟨[none], [], .None, .Fixed 1⟩) ∧
    (Inventory.use_item (K := Nat) (S := Unit) (U := Unit)
        ⟨[some ⟨1, 2, none, ()⟩], [], .None, .Fixed 1⟩ 0)
      = some (.ok none, ⟨[some ⟨1, 2, none, ()⟩], [], .None, .Fixed 1⟩) ∧
    (∃ inv', (Inventory.use_item (K := Nat) (S := Unit) (U := Unit)
        ⟨[some ⟨1, 4, some 0, ()⟩], [], .None, .Fixed 1⟩ 0)
      = some (.error (.ItemDestroyed ⟨1, 4, some 0, ()⟩), inv') ∧
      inv'.content = [none]) ∧
    (Inventory.use_item (K := Nat) (S := Unit) (U := Unit)
        ⟨[some ⟨1, 4, some 3, ()⟩], [], .None, .Fixed 1⟩ 0)
      = some (.ok (some 2),
          ⟨[some ⟨1, 4, some 2, ()⟩], [], .None, .Fixed 1⟩) := by
  refine ⟨?_, ?_, ?_, ?_⟩
  · exact (use_item_characterization
      (⟨[none], [], .None, .Fixed 1⟩ : Inventory Nat Unit Unit) 0).1 (Or.inr rfl)
  · exact (use_item_characterization
      (⟨[some ⟨1, 2, none, ()⟩], [], .None, .Fixed 1⟩ : Inventory Nat Unit Unit) 0).2.1
      ⟨1, 2, none, ()⟩ rfl rfl
  · obtain ⟨inv', h1, h2⟩ := (use_item_characterization
      (⟨[some ⟨1, 4, some 0, ()⟩], [], .None, .Fixed 1⟩ : Inventory Nat Unit Unit) 0).2.2.1
      ⟨1, 4, some 0, ()⟩ rfl rfl
    exact ⟨inv', h1, h2 rfl⟩
  · exact (use_item_characterization
      (⟨[some ⟨1, 4, some 3, ()⟩], [], .None, .Fixed 1⟩ : Inventory Nat Unit Unit) 0).2.2.2
      ⟨1, 4, some 3, ()⟩ 2 rfl rfl


/-- C8: the merge performed inside `insert`'s merge loop conserves the
total quantity of the two stacks; on matching key and user data the
amount moved is `min(maximum_stack - recipient.quantity,
donor.quantity)` when the catalog carries a stack cap (so a recipient at
or below the cap is never pushed above it), else the donor's entire
quantity; on key or user data mismatch the merge transfers nothing. -/
theorem merge_conserves_and_caps (self other : ItemInstance K U)
    (defs : ItemDefinitions K S D) :
    ((ItemInstance.merge self other defs).1.quantity +
        (ItemInstance.merge self other defs).2.quantity
      = self.quantity + other.quantity) ∧
    (self.key = other.key → self.user_data = other.user_data →
      (∀ cap, (defs.defs self.key).bind (fun dd => dd.maximum_stack) = some cap →
        (ItemInstance.merge self other defs).1.quantity
            = self.quantity + min (cap - self.quantity) other.quantity ∧
          (self.quantity ≤ cap →
            (ItemInstance.merge self other defs).1.quantity ≤ cap)) ∧
      ((defs.defs self.key).bind (fun dd => dd.maximum_stack) = none →
        (ItemInstance.merge self other defs).1.quantity
            = self.quantity + other.quantity ∧
          (ItemInstance.merge self other defs).2.quantity = 0)) ∧
    (¬ (self.key = other.key ∧ self.user_data = other.user_data) →
      ItemInstance.merge self other defs = (self, other)) := by
  refine ⟨?_, ?_, ?_⟩
  · by_cases hm : self.key = other.key ∧ self.user_data = other.user_data
    · match hc : (defs.defs self.key).bind (fun dd => dd.maximum_stack) with
      | some cap =>
          simp only [ItemInstance.merge, if_pos hm, hc]
          rcases Nat.le_total (cap - self.quantity) other.quantity with hle | hle
          · rw [min_eq_left hle]; omega
          · rw [min_eq_right hle]; omega
      | none =>
          simp only [ItemInstance.merge, if_pos hm, hc]
          omega
    · simp only [ItemInstance.merge, if_neg hm]
  · rintro hk hu
    have hm : self.key = other.key ∧ self.user_data = other.user_data := ⟨hk, hu⟩
    refine ⟨?_, ?_⟩
    · intro cap hc
      simp only [ItemInstance.merge, if_pos hm, hc]
      refine ⟨trivial, ?_⟩
      intro hle
      rcases Nat.le_total (cap - self.quantity) other.quantity with hle2 | hle2
      · rw [min_eq_left hle2]; omega
      · rw [min_eq_right hle2]; omega
    · intro hc
      simp only [ItemInstance.merge, if_pos hm, hc]
      exact ⟨trivial, Nat.sub_self _⟩
  · intro hm
    simp only [ItemInstance.merge, if_neg hm]

/-- Witness for C8 at a concrete input: recipient 3 and donor 9 of key 1
under a stack cap of 10 — the total 12 is conserved and the recipient
ends at most at the cap. -/
theorem merge_conserves_and_caps_witness :
    ((ItemInstance.merge (⟨1, 3, none, ()⟩ : ItemInstance Nat Unit)
        ⟨1, 9, none, ()⟩ cappedDefs).1.quantity +
      (ItemInstance.merge (⟨1, 3, none, ()⟩ : ItemInstance Nat Unit)
        ⟨1, 9, none, ()⟩ cappedDefs).2.quantity = 3 + 9) ∧
    (ItemInstance.merge (⟨1, 3, none, ()⟩ : ItemInstance Nat Unit)
        ⟨1, 9, none, ()⟩ cappedDefs).1.quantity ≤ 10 := by
  constructor
  · exact (merge_conserves_and_caps (⟨1, 3, none, ()⟩ : ItemInstance Nat Unit)
      ⟨1, 9, none, ()⟩ cappedDefs).1
  · exact (((merge_conserves_and_caps (⟨1, 3, none, ()⟩ : ItemInstance Nat Unit)
      ⟨1, 9, none, ()⟩ cappedDefs).2.1 rfl rfl).1 10 rfl).2 (by decide)

/-- Counterexample to C1 as stated: the claim quantifies over every
`move_to_front` mode, but under `Offset` the index list is computed
before any mutation, and the shifts performed by intermediate removals
make later indices point at other slots. Concretely, draining 3 of key 1
from `[1 x1, 1 x2, 2 x9]` drains slot 0, shifts, then drains 2 units
from the key-2 stack (9 drops to 7) while a key-1 stack of 2 remains —
neither of the claim's two permitted outcomes. Moreover, with quantity 0
and no matching stack the sum check passes and the loop body is never
entered, reaching the `unreachable` panic — again neither outcome. -/
theorem delete_key_stale_indices_cex :
    (Inventory.delete_key (K := Nat) (S := Unit) (U := Unit)
        ⟨[some ⟨1, 1, none, ()⟩, some ⟨1, 2, none, ()⟩, some ⟨2, 9, none, ()⟩],
          [], .Offset, .Fixed 3⟩ 1 3)
      = some (.ok ⟨1, 3, none, ()⟩,
          ⟨[some ⟨1, 2, none, ()⟩, some ⟨2, 7, none, ()⟩, none],
            [], .Offset, .Fixed 3⟩) ∧
    sumKey [some (⟨1, 1, none, ()⟩ : ItemInstance Nat Unit),
      some ⟨1, 2, none, ()⟩, some ⟨2, 9, none, ()⟩] 2 = 9 ∧
    sumKey [some (⟨1, 2, none, ()⟩ : ItemInstance Nat Unit),
      some ⟨2, 7, none, ()⟩, none] 2 = 7 ∧
    (Inventory.delete_key (K := Nat) (S := Unit) (U := Unit)
        (Inventory.new_fixed 1) 1 0) = none :=
  ⟨rfl, rfl, rfl, rfl⟩

/-- Counterexample to C2 as stated: under Fixed sizing with
`move_to_front = TakeLast`, `first_empty_slot` never scans `content`; it
only offers the past-the-end index when the length differs from `size`.
An inventory of size 2 whose second slot is an Empty tail hole therefore
makes `insert` fail with `InventoryFull` even though a slot of `content`
is `None`. -/
theorem insert_full_despite_empty_slot_cex :
    (Inventory.insert (K := Nat) (S := Unit) (U := Unit)
        ⟨[some ⟨5, 1, none, ()⟩, none], [], .TakeLast, .Fixed 2⟩
        ⟨7, 1, none, ()⟩ emptyDefs)
      = some (.error .InventoryFull,
          ⟨[some ⟨5, 1, none, ()⟩, none], [], .TakeLast, .Fixed 2⟩) ∧
    ([some (⟨5, 1, none, ()⟩ : ItemInstance Nat Unit), none])[1]? = some none :=
  ⟨rfl, rfl⟩

/-- Counterexample to C3 as stated: `new_dynamic(1, 0)` is reachable (it
is a constructor call), yet its slot count 1 exceeds `max_size = 0`, so
the count does not lie within `[min_size, max_size]`. -/
theorem dynamic_min_above_max_cex :
    Reachable (K := Nat) (S := Unit) (U := Unit) false false
      (Inventory.new_dynamic 1 0) ∧
    (Inventory.new_dynamic 1 0 : Inventory Nat Unit Unit).sizing_mode
      = .Dynamic 1 0 ∧
    ¬ (Inventory.new_dynamic 1 0 : Inventory Nat Unit Unit).content.length ≤ 0 :=
  ⟨.new_dynamic 1 0, rfl, by decide⟩

/-- Counterexample to C4 as stated: with every inserted stack positive
(`insPos = true`) but no constraint on `transfer` quantities, a
`transfer` of quantity 0 from an occupied slot deposits a stack of
quantity 0 into the empty target slot. The final inventory is reachable
and its slot 0 holds a zero-quantity stack. -/
theorem transfer_zero_quantity_stack_cex :
    Reachable (K := Nat) (S := Unit) (U := Unit) true false
      ⟨[some ⟨1, 0, none, ()⟩], List.replicate 1 none, .None, .Fixed 1⟩ ∧
    ((⟨[some ⟨1, 0, none, ()⟩], List.replicate 1 none, .None, .Fixed 1⟩ :
        Inventory Nat Unit Unit).content)[0]?
      = some (some ⟨1, 0, none, ()⟩) ∧
    ¬ 0 < (⟨1, 0, none, ()⟩ : ItemInstance Nat Unit).quantity := by
  refine ⟨?_, rfl, by decide⟩
  have h0 : Reachable (K := Nat) (S := Unit) (U := Unit) true false
      (Inventory.new_fixed 1) := .new_fixed 1
  have h1 : Reachable (K := Nat) (S := Unit) (U := Unit) true false
      ⟨[some ⟨1, 5, none, ()⟩], List.replicate 1 none, .None, .Fixed 1⟩ :=
    .step_insert Unit emptyDefs ⟨1, 5, none, ()⟩ (fun _ => by decide) h0 rfl
  exact .step_transfer_tgt Unit emptyDefs 0 0 0 false
    (fun hf => absurd hf (by decide)) h1 h0 rfl

theorem getElem?_append_mid {α : Type} (pre : List α) (x : α) (rest : List α) :
    (pre ++ x :: rest)[pre.length]? = some x := by
  rw [List.getElem?_append_right (Nat.le_refl _), Nat.sub_self]
  simp

theorem set_append_mid {α : Type} (pre : List α) (x y : α) (rest : List α) :
    (pre ++ x :: rest).set pre.length y = pre ++ y :: rest := by
  rw [List.set_append]
  simp

theorem sumKey_nil (key : K) :
    sumKey ([] : List (Option (ItemInstance K U))) key = 0 := rfl

theorem sumKey_cons_none (rest : List (Option (ItemInstance K U))) (key : K) :
    sumKey (none :: rest) key = sumKey rest key := by
  simp [sumKey]

theorem sumKey_cons_some (ii : ItemInstance K U)
    (rest : List (Option (ItemInstance K U))) (key : K) :
    sumKey (some ii :: rest) key
      = (if ii.key = key then ii.quantity else 0) + sumKey rest key := by
  by_cases h : ii.key = key <;>
    simp [sumKey, List.filterMap_cons, List.filter_cons, h]

theorem delete_none_mid (sr : List (Option S)) (sz : InventorySizingMode)
    (pre rest : List (Option (ItemInstance K U))) (ii : ItemInstance K U)
    (q : Nat) (hq : q ≤ ii.quantity) :
    Inventory.delete ⟨pre ++ some ii :: rest, sr, .None, sz⟩ pre.length q =
      some (.ok ⟨ii.key, q, ii.durability, (default : U)⟩,
        ⟨pre ++ (if ii.quantity - q = 0 then none
                 else some { ii with quantity := ii.quantity - q }) :: rest,
          sr, .None, sz⟩) := by
  simp only [Inventory.delete, getElem?_append_mid, if_pos hq]
  by_cases h0 : ii.quantity - q = 0
  · simp only [if_pos h0, Inventory.remove_slot, set_append_mid, Option.map]
  · simp only [if_neg h0, set_append_mid]

theorem deleteKeyLoop_drain (sr : List (Option S)) (sz : InventorySizingMode)
    (key : K) (l : List (Option (ItemInstance K U))) :
    ∀ (pre : List (Option (ItemInstance K U))) (rem n : Nat),
      1 ≤ rem → rem ≤ sumKey l key →
      deleteKeyLoop ⟨pre ++ l, sr, .None, sz⟩ key
          (matchingIndicesFrom l key pre.length) rem n
        = some (.ok (ItemInstance.new key n),
            ⟨pre ++ drainContent l key rem, sr, .None, sz⟩) := by
  induction l with
  | nil =>
      intro pre rem n h1 h2
      rw [sumKey_nil] at h2
      omega
  | cons o rest ih =>
      intro pre rem n h1 h2
      match o with
      | none =>
          rw [sumKey_cons_none] at h2
          have hrec := ih (pre ++ [none]) rem n h1 h2
          simp only [List.append_assoc, List.singleton_append,
            List.length_append, List.length_cons, List.length_nil] at hrec
          simp only [matchingIndicesFrom, List.nil_append, drainContent]
          exact hrec
      | some ii =>
          by_cases hk : ii.key = key
          · rw [sumKey_cons_some, if_pos hk] at h2
            simp only [matchingIndicesFrom, if_pos hk, List.singleton_append]
            by_cases hle : rem ≤ ii.quantity
            · simp only [deleteKeyLoop, getElem?_append_mid, if_pos hle,
                delete_none_mid sr sz pre rest ii rem hle, Nat.sub_self,
                eq_self_iff_true, if_true]
              have hg : ii.key = key ∧ rem ≠ 0 := ⟨hk, by omega⟩
              rcases Nat.lt_or_ge rem ii.quantity with hlt | hge
              · have hne : ¬ ii.quantity - rem = 0 := by omega
                simp only [if_neg hne, drainContent, if_pos hg,
                  if_neg (by omega : ¬ ii.quantity < rem), if_pos hlt]
              · have heq : ii.quantity = rem := by omega
                have hz : ii.quantity - rem = 0 := by omega
                simp only [if_pos hz, drainContent, if_pos hg,
                  if_neg (by omega : ¬ ii.quantity < rem),
                  if_neg (by omega : ¬ rem < ii.quantity)]
            · have hlt : ii.quantity < rem := by omega
              have hz : ii.quantity - ii.quantity = 0 := Nat.sub_self _
              simp only [deleteKeyLoop, getElem?_append_mid, if_neg hle,
                delete_none_mid sr sz pre rest ii ii.quantity (Nat.le_refl _),
                hz, eq_self_iff_true, if_true]
              have hne : ¬ rem - ii.quantity = 0 := by omega
              rw [if_neg hne]
              have hrec := ih (pre ++ [none]) (rem - ii.quantity) n
                (by omega) (by omega)
              simp only [List.append_assoc, List.singleton_append,
                List.length_append, List.length_cons, List.length_nil] at hrec
              simp only [drainContent, if_pos (⟨hk, by omega⟩ : ii.key = key ∧ rem ≠ 0),
                if_pos hlt]
              exact hrec
          · rw [sumKey_cons_some, if_neg hk] at h2
            have hrec := ih (pre ++ [some ii]) rem n h1 (by omega)
            simp only [List.append_assoc, List.singleton_append,
              List.length_append, List.length_cons, List.length_nil] at hrec
            have hg : ¬ (ii.key = key ∧ rem ≠ 0) := fun hc => hk hc.1
            simp only [matchingIndicesFrom, if_neg hk, List.nil_append,
              drainContent, if_neg hg]
            exact hrec

/-- C1 (amended): restricted to `move_to_front = None` (where removal
clears slots in place, so the pre-computed index list stays valid) and
to requests of at least 1: `delete_key(k, n)` either fully satisfies the
request — draining matching occupied slots in index order per
`drainContent`, partially draining the last slot touched — and returns
a stack with key `k` and quantity exactly `n`, or fails with
`NotEnoughQuantity` (exactly when the matching stacks sum below `n`) and
leaves the inventory completely unchanged. Under `TakeLast`/`Offset` the
stale index list can drain non-matching slots or panic, and a request of
0 with no matching slot panics. -/
theorem delete_key_none_mode_spec (inv : Inventory K S U) (key : K) (n : Nat)
    (hm : inv.move_to_front = .None) (hn : 1 ≤ n) :
    (sumKey inv.content key < n →
      inv.delete_key key n = some (.error .NotEnoughQuantity, inv)) ∧
    (n ≤ sumKey inv.content key →
      inv.delete_key key n = some (.ok (ItemInstance.new key n),
        { inv with content := drainContent inv.content key n })) := by
  obtain ⟨c, sr, mtf, sz⟩ := inv
  simp only at hm
  subst hm
  dsimp only
  constructor
  · intro hlt
    simp only [Inventory.delete_key, Inventory.has_quantity]
    rw [if_neg (by simp; omega)]
  · intro hge
    simp only [Inventory.delete_key, Inventory.has_quantity]
    rw [if_pos (by simp; omega)]
    have hrec := deleteKeyLoop_drain sr sz key c [] n n hn hge
    simpa using hrec

/-- Witness for C1 at concrete inputs: draining 6 of key 1 from
`[1 x2, 2 x1, 1 x5]` empties slot 0 and partially drains slot 2, and
asking for 9 fails with `NotEnoughQuantity` leaving the inventory
unchanged. -/
theorem delete_key_none_mode_spec_witness :
    (Inventory.delete_key (K := Nat) (S := Unit) (U := Unit)
        ⟨[some ⟨1, 2, none, ()⟩, some ⟨2, 1, none, ()⟩, some ⟨1, 5, none, ()⟩],
          [], .None, .Fixed 3⟩ 1 6)
      = some (.ok (ItemInstance.new 1 6),
          ⟨[none, some ⟨2, 1, none, ()⟩, some ⟨1, 1, none, ()⟩],
            [], .None, .Fixed 3⟩) ∧
    (Inventory.delete_key (K := Nat) (S := Unit) (U := Unit)
        ⟨[some ⟨1, 2, none, ()⟩, some ⟨2, 1, none, ()⟩, some ⟨1, 5, none, ()⟩],
          [], .None, .Fixed 3⟩ 1 9)
      = some (.error .NotEnoughQuantity,
          ⟨[some ⟨1, 2, none, ()⟩, some ⟨2, 1, none, ()⟩, some ⟨1, 5, none, ()⟩],
            [], .None, .Fixed 3⟩) := by
  constructor
  · have h := (delete_key_none_mode_spec
      (⟨[some ⟨1, 2, none, ()⟩, some ⟨2, 1, none, ()⟩, some ⟨1, 5, none, ()⟩],
        [], .None, .Fixed 3⟩ : Inventory Nat Unit Unit) 1 6 rfl (by decide)).2
      (by decide)
    simpa using h
  · exact (delete_key_none_mode_spec
      (⟨[some ⟨1, 2, none, ()⟩, some ⟨2, 1, none, ()⟩, some ⟨1, 5, none, ()⟩],
        [], .None, .Fixed 3⟩ : Inventory Nat Unit Unit) 1 9 rfl (by decide)).1
      (by decide)

theorem mergeLoop_shape (item : ItemInstance K U) (defs : ItemDefinitions K S D) :
    ∀ cont : List (Option (ItemInstance K U)),
      (mergeLoop cont item defs).1.length = cont.length ∧
      ∀ j : Nat, ((mergeLoop cont item defs).1[j]? = some none ↔ cont[j]? = some none)
  | [] => ⟨rfl, fun _ => Iff.rfl⟩
  | none :: rest => by
      have ih := mergeLoop_shape item defs rest
      simp only [mergeLoop]
      refine ⟨by simpa using ih.1, ?_⟩
      intro j
      match j with
      | 0 => simp
      | j + 1 => simpa using ih.2 j
  | some ii :: rest => by
      by_cases hk : ii.key = item.key
      · by_cases hq : item.quantity = 0
        · simp [mergeLoop, if_pos hk, if_pos hq]
        · have ih := mergeLoop_shape
            ((ItemInstance.merge ii item defs).2) defs rest
          simp only [mergeLoop, if_pos hk, if_neg hq]
          refine ⟨by simpa using ih.1, ?_⟩
          intro j
          match j with
          | 0 => simp
          | j + 1 => simpa using ih.2 j
      · have ih := mergeLoop_shape item defs rest
        simp only [mergeLoop, if_neg hk]
        refine ⟨by simpa using ih.1, ?_⟩
        intro j
        match j with
        | 0 => simp
        | j + 1 => simpa using ih.2 j

theorem firstNoneFrom_eq_none {cont : List (Option (ItemInstance K U))} :
    ∀ i : Nat, firstNoneFrom cont i = none → ∀ o ∈ cont, o ≠ none := by
  induction cont with
  | nil => intro i _ o ho; cases ho
  | cons a rest ih =>
      intro i hf o ho
      match a with
      | none => exact Option.noConfusion hf
      | some x =>
          rcases List.mem_cons.mp ho with ho | ho
          · subst ho; exact fun hc => Option.noConfusion hc
          · exact ih (i + 1) hf o ho

theorem firstNoneFrom_eq_some {cont : List (Option (ItemInstance K U))} :
    ∀ i j : Nat, firstNoneFrom cont i = some j → i ≤ j ∧ cont[j - i]? = some none := by
  induction cont with
  | nil => intro i j hf; exact Option.noConfusion hf
  | cons a rest ih =>
      intro i j hf
      match a with
      | none =>
          have hj : i = j := Option.some.injEq .. ▸ hf
          subst hj
          simp
      | some x =>
          obtain ⟨h1, h2⟩ := ih (i + 1) j hf
          refine ⟨by omega, ?_⟩
          have : j - i = (j - (i + 1)) + 1 := by omega
          rw [this, List.getElem?_cons_succ]
          exact h2

theorem insert_none_fixed_run (inv : Inventory K S U) (item : ItemInstance K U)
    (defs : ItemDefinitions K S D) (size : Nat)
    (hm : inv.move_to_front = .None) (hs : inv.sizing_mode = .Fixed size) :
    inv.insert item defs =
      if (mergeLoop inv.content item defs).2.quantity = 0 then
        some (.ok (), { inv with content := (mergeLoop inv.content item defs).1 })
      else
        match firstNoneFrom (mergeLoop inv.content item defs).1 0 with
        | some j => some (.ok (), { inv with content := ((mergeLoop inv.content item defs).1.set j (some (mergeLoop inv.content item defs).2)) })
        | none => some (.error .InventoryFull,
            { inv with content := (mergeLoop inv.content item defs).1 }) := by
  by_cases hq : (mergeLoop inv.content item defs).2.quantity = 0
  · simp only [Inventory.insert, hq, if_pos rfl, eq_self_iff_true, if_true]
  · rw [if_neg hq]
    match hf : firstNoneFrom (mergeLoop inv.content item defs).1 0 with
    | some j =>
        obtain ⟨-, hslot⟩ := firstNoneFrom_eq_some 0 j hf
        rw [Nat.sub_zero] at hslot
        simp only [Inventory.insert, Inventory.first_empty_slot, hm, hq,
          if_neg hq, hf, Inventory.insert_into, hslot]
        simp [hm, hs]
    | none =>
        simp only [Inventory.insert, Inventory.first_empty_slot, hm, hq,
          if_neg hq, hf, hs]
        simp [hm, hs]

/-- C2 (amended): for a Fixed-sizing inventory with `move_to_front =
None`, insert of a stack with residual quantity after merging places the
residual into the first empty slot when one exists, and returns
`InventoryFull` only when no slot of `content` is Empty. Under
`TakeLast`/`Offset`, `first_empty_slot` never scans `content`: it offers
only the past-the-end index when the length differs from `size`, so
`insert` can return `InventoryFull` while an Empty tail slot exists. -/
theorem insert_first_empty_none_mode (inv : Inventory K S U)
    (item : ItemInstance K U) (defs : ItemDefinitions K S D) (size : Nat)
    (hm : inv.move_to_front = .None) (hs : inv.sizing_mode = .Fixed size) :
    ((∃ o ∈ inv.content, o = none) →
      ∀ inv', inv.insert item defs ≠ some (.error .InventoryFull, inv')) ∧
    (∀ j, (mergeLoop inv.content item defs).2.quantity ≠ 0 →
      firstNoneFrom (mergeLoop inv.content item defs).1 0 = some j →
      inv.insert item defs = some (.ok (), { inv with content := ((mergeLoop inv.content item defs).1.set j (some (mergeLoop inv.content item defs).2)) })) ∧
    ((mergeLoop inv.content item defs).2.quantity ≠ 0 →
      firstNoneFrom (mergeLoop inv.content item defs).1 0 = none →
      inv.insert item defs = some (.error .InventoryFull,
        { inv with content := (mergeLoop inv.content item defs).1 })) := by
  refine ⟨?_, ?_, ?_⟩
  · rintro ⟨o, ho, rfl⟩ inv' hc
    rw [insert_none_fixed_run inv item defs size hm hs] at hc
    by_cases hq : (mergeLoop inv.content item defs).2.quantity = 0
    · rw [if_pos hq] at hc
      simp at hc
    · rw [if_neg hq] at hc
      match hf : firstNoneFrom (mergeLoop inv.content item defs).1 0 with
      | some j => rw [hf] at hc; simp at hc
      | none =>
          obtain ⟨n, hn⟩ := List.mem_iff_getElem?.mp ho
          have hp := ((mergeLoop_shape item defs inv.content).2 n).mpr hn
          have hmem := List.getElem?_mem hp
          exact firstNoneFrom_eq_none 0 hf none hmem rfl
  · intro j hq hf
    rw [insert_none_fixed_run inv item defs size hm hs, if_neg hq, hf]
  · intro hq hf
    rw [insert_none_fixed_run inv item defs size hm hs, if_neg hq, hf]

/-- Witness for C2 at a concrete input: inserting key 2 into a size-2
`None`-mode inventory holding key 1 in slot 0 and an Empty slot 1 puts
the residual stack into slot 1. -/
theorem insert_first_empty_none_mode_witness :
    (Inventory.insert (K := Nat) (S := Unit) (U := Unit)
        ⟨[some ⟨1, 1, none, ()⟩, none], [], .None, .Fixed 2⟩
        ⟨2, 1, none, ()⟩ emptyDefs)
      = some (.ok (),
          ⟨[some ⟨1, 1, none, ()⟩, some ⟨2, 1, none, ()⟩], [], .None, .Fixed 2⟩) := by
  have h := (insert_first_empty_none_mode
    (⟨[some ⟨1, 1, none, ()⟩, none], [], .None, .Fixed 2⟩ : Inventory Nat Unit Unit)
    ⟨2, 1, none, ()⟩ emptyDefs 2 rfl rfl).2.1 1 (by decide) rfl
  simpa using h

theorem delete_none_run {inv : Inventory K S U} (idx q : Nat)
    (hm : inv.move_to_front = .None) :
    inv.delete idx q =
      match inv.content[idx]? with
      | some (some ii) =>
          if q ≤ ii.quantity then
            some (.ok ⟨ii.key, q, ii.durability, (default : U)⟩,
              { inv with content := (inv.content.set idx (if ii.quantity - q = 0 then none else some { ii with quantity := ii.quantity - q })) })
          else some (.error .NotEnoughQuantity, inv)
      | _ => some (.error .SlotEmpty, inv) := by
  match hc : inv.content[idx]? with
  | some (some ii) =>
      simp only [Inventory.delete, hc]
      by_cases hq : q ≤ ii.quantity
      · simp only [if_pos hq]
        by_cases h0 : ii.quantity - q = 0
        · simp [if_pos h0, Inventory.remove_slot, hm, List.set_set]
        · simp [if_neg h0]
      · simp [if_neg hq]
  | some none => simp [Inventory.delete, hc]
  | none => simp [Inventory.delete, hc]

theorem delete_stack_none_run {inv : Inventory K S U} (idx : Nat)
    (hm : inv.move_to_front = .None) :
    inv.delete_stack idx =
      match inv.content[idx]? with
      | some (some ii) =>
          some (.ok ⟨ii.key, ii.quantity, ii.durability, (default : U)⟩,
            { inv with content := inv.content.set idx none })
      | _ => some (.error .SlotEmpty, inv) := by
  match hc : inv.content[idx]? with
  | some (some ii) =>
      simp [Inventory.delete_stack, hc, delete_none_run idx ii.quantity hm,
        Nat.le_refl, if_true, Nat.sub_self]
  | some none => simp [Inventory.delete_stack, hc]
  | none => simp [Inventory.delete_stack, hc]

theorem consume_none_run {inv : Inventory K S U} (idx : Nat)
    (hm : inv.move_to_front = .None) :
    inv.consume idx =
      match inv.content[idx]? with
      | some (some ii) =>
          if ii.quantity - 1 = 0 then
            some (.error (.StackConsumed ⟨ii.key, 0, ii.durability, (default : U)⟩),
              { inv with content := inv.content.set idx none })
          else
            some (.ok (ii.quantity - 1),
              { inv with content := (inv.content.set idx (some { ii with quantity := ii.quantity - 1 })) })
      | _ => some (.error .SlotEmpty, inv) := by
  match hc : inv.content[idx]? with
  | some (some ii) =>
      have hlen : idx < inv.content.length := getElem?_some_lt hc
      simp only [Inventory.consume, hc]
      by_cases h0 : ii.quantity - 1 = 0
      · have hset : (inv.content.set idx (some { ii with quantity := ii.quantity - 1 }))[idx]? =
            some (some { ii with quantity := ii.quantity - 1 }) :=
          List.getElem?_set_self hlen
        have hm2 : ({ inv with content := (inv.content.set idx (some { ii with quantity := ii.quantity - 1 })) } :
            Inventory K S U).move_to_front = .None := hm
        rw [if_pos h0, if_pos h0, delete_stack_none_run idx hm2]
        simp [h0, List.getElem?_set_self hlen, List.set_set]
      · simp [if_neg h0]
  | some none => simp [Inventory.consume, hc]
  | none => simp [Inventory.consume, hc]

theorem use_item_none_run {inv : Inventory K S U} (idx : Nat)
    (hm : inv.move_to_front = .None) :
    inv.use_item idx =
      match inv.content[idx]? with
      | some (some ii) =>
          match ii.durability with
          | some 0 =>
              some (.error (.ItemDestroyed ⟨ii.key, ii.quantity, some 0, (default : U)⟩),
                { inv with content := inv.content.set idx none })
          | some (d + 1) =>
              some (.ok (some d),
                { inv with content := (inv.content.set idx (some { ii with durability := some d })) })
          | none => some (.ok none, inv)
      | _ => some (.error .SlotEmpty, inv) := by
  match hc : inv.content[idx]? with
  | some (some ii) =>
      match hd : ii.durability with
      | some 0 =>
          simp only [Inventory.use_item, hc, hd, eq_self_iff_true, if_true,
            delete_stack_none_run idx hm, hc]
      | some (d + 1) =>
          simp [Inventory.use_item, hc, hd]
      | none => simp [Inventory.use_item, hc, hd]
  | some none => simp [Inventory.use_item, hc]
  | none => simp [Inventory.use_item, hc]

theorem insert_none_dynamic_run {inv : Inventory K S U} (item : ItemInstance K U)
    (defs : ItemDefinitions K S D) (mn mx : Nat)
    (hm : inv.move_to_front = .None) (hs : inv.sizing_mode = .Dynamic mn mx) :
    inv.insert item defs =
      if (mergeLoop inv.content item defs).2.quantity = 0 then
        some (.ok (), { inv with content := (mergeLoop inv.content item defs).1 })
      else
        match firstNoneFrom (mergeLoop inv.content item defs).1 0 with
        | some j => some (.ok (), { inv with content := ((mergeLoop inv.content item defs).1.set j (some (mergeLoop inv.content item defs).2)) })
        | none =>
            if (mergeLoop inv.content item defs).1.length ≠ mx then
              some (.ok (), { inv with content := (mergeLoop inv.content item defs).1 ++ [some (mergeLoop inv.content item defs).2] })
            else
              some (.error .InventoryFull,
                { inv with content := (mergeLoop inv.content item defs).1 }) := by
  by_cases hq : (mergeLoop inv.content item defs).2.quantity = 0
  · simp only [Inventory.insert, hq, eq_self_iff_true, if_true]
  · rw [if_neg hq]
    match hf : firstNoneFrom (mergeLoop inv.content item defs).1 0 with
    | some j =>
        obtain ⟨-, hslot⟩ := firstNoneFrom_eq_some 0 j hf
        rw [Nat.sub_zero] at hslot
        simp only [Inventory.insert, Inventory.first_empty_slot, hm, hq,
          if_neg hq, hf, Inventory.insert_into, hslot]
        simp [hm, hs]
    | none =>
        by_cases hl : (mergeLoop inv.content item defs).1.length ≠ mx
        · rw [if_pos hl]
          have hmid : ((mergeLoop inv.content item defs).1 ++ [(none : Option (ItemInstance K U))])[(mergeLoop inv.content item defs).1.length]? = some none :=
            getElem?_append_mid _ none []
          simp only [Inventory.insert, Inventory.first_empty_slot, hm, hq,
            if_neg hq, hf, hs, Inventory.has_space, Inventory.insert_into]
          simp only [List.length_append, List.length_cons, List.length_nil,
            Nat.add_sub_cancel, hmid]
          have hb : (((mergeLoop inv.content item defs).1.length != mx)) = true := by
            simpa using hl
          rw [if_pos hb]
          simp [set_append_mid]
        · rw [if_neg hl]
          have he : (mergeLoop inv.content item defs).1.length = mx := by omega
          simp only [Inventory.insert, Inventory.first_empty_slot, hm, hq,
            if_neg hq, hf, hs, Inventory.has_space]
          simp [he]

theorem insert_into_frame {inv inv' : Inventory K S U} {idx : Nat}
    {item : ItemInstance K U} {defs : ItemDefinitions K S D}
    {r : Except (ItemError K U) Unit}
    (h : inv.insert_into idx item defs = some (r, inv')) :
    inv'.move_to_front = inv.move_to_front ∧ inv'.sizing_mode = inv.sizing_mode ∧
      inv'.content.length = inv.content.length := by
  match hc : inv.content[idx]? with
  | some (some x) =>
      simp only [Inventory.insert_into, hc, Option.some.injEq, Prod.mk.injEq] at h
      rw [← h.2]
      exact ⟨rfl, rfl, rfl⟩
  | some none =>
      simp only [Inventory.insert_into, hc, Option.some.injEq, Prod.mk.injEq] at h
      rw [← h.2]
      exact ⟨rfl, rfl, by simp⟩
  | none => simp [Inventory.insert_into, hc] at h

theorem delete_frame {inv inv' : Inventory K S U} {idx q : Nat}
    {r : Except (ItemError K U) (ItemInstance K U)}
    (hm : inv.move_to_front = .None)
    (h : inv.delete idx q = some (r, inv')) :
    inv'.move_to_front = .None ∧ inv'.sizing_mode = inv.sizing_mode ∧
      inv'.content.length = inv.content.length := by
  rw [delete_none_run idx q hm] at h
  match hc : inv.content[idx]? with
  | some (some ii) =>
      simp only [hc] at h
      by_cases hq : q ≤ ii.quantity
      · rw [if_pos hq] at h
        simp only [Option.some.injEq, Prod.mk.injEq] at h
        rw [← h.2]
        exact ⟨hm, rfl, by simp⟩
      · rw [if_neg hq] at h
        simp only [Option.some.injEq, Prod.mk.injEq] at h
        rw [← h.2]
        exact ⟨hm, rfl, rfl⟩
  | some none =>
      simp only [hc, Option.some.injEq, Prod.mk.injEq] at h
      rw [← h.2]
      exact ⟨hm, rfl, rfl⟩
  | none =>
      simp only [hc, Option.some.injEq, Prod.mk.injEq] at h
      rw [← h.2]
      exact ⟨hm, rfl, rfl⟩

theorem delete_stack_frame {inv inv' : Inventory K S U} {idx : Nat}
    {r : Except (ItemError K U) (ItemInstance K U)}
    (hm : inv.move_to_front = .None)
    (h : inv.delete_stack idx = some (r, inv')) :
    inv'.move_to_front = .None ∧ inv'.sizing_mode = inv.sizing_mode ∧
      inv'.content.length = inv.content.length := by
  match hc : inv.content[idx]? with
  | some (some ii) =>
      simp only [Inventory.delete_stack, hc] at h
      exact delete_frame hm h
  | some none =>
      simp only [Inventory.delete_stack, hc, Option.some.injEq, Prod.mk.injEq] at h
      rw [← h.2]
      exact ⟨hm, rfl, rfl⟩
  | none =>
      simp only [Inventory.delete_stack, hc, Option.some.injEq, Prod.mk.injEq] at h
      rw [← h.2]
      exact ⟨hm, rfl, rfl⟩

theorem consume_frame {inv inv' : Inventory K S U} {idx : Nat}
    {r : Except (ItemError K U) Nat}
    (hm : inv.move_to_front = .None)
    (h : inv.consume idx = some (r, inv')) :
    inv'.move_to_front = .None ∧ inv'.sizing_mode = inv.sizing_mode ∧
      inv'.content.length = inv.content.length := by
  rw [consume_none_run idx hm] at h
  match hc : inv.content[idx]? with
  | some (some ii) =>
      simp only [hc] at h
      by_cases h0 : ii.quantity - 1 = 0
      · rw [if_pos h0] at h
        simp only [Option.some.injEq, Prod.mk.injEq] at h
        rw [← h.2]
        exact ⟨hm, rfl, by simp⟩
      · rw [if_neg h0] at h
        simp only [Option.some.injEq, Prod.mk.injEq] at h
        rw [← h.2]
        exact ⟨hm, rfl, by simp⟩
  | some none =>
      simp only [hc, Option.some.injEq, Prod.mk.injEq] at h
      rw [← h.2]
      exact ⟨hm, rfl, rfl⟩
  | none =>
      simp only [hc, Option.some.injEq, Prod.mk.injEq] at h
      rw [← h.2]
      exact ⟨hm, rfl, rfl⟩

theorem use_item_frame {inv inv' : Inventory K S U} {idx : Nat}
    {r : Except (ItemError K U) (Option Nat)}
    (hm : inv.move_to_front = .None)
    (h : inv.use_item idx = some (r, inv')) :
    inv'.move_to_front = .None ∧ inv'.sizing_mode = inv.sizing_mode ∧
      inv'.content.length = inv.content.length := by
  rw [use_item_none_run idx hm] at h
  match hc : inv.content[idx]? with
  | some (some ii) =>
      match hd : ii.durability with
      | some 0 =>
          simp only [hc, hd, Option.some.injEq, Prod.mk.injEq] at h
          rw [← h.2]
          exact ⟨hm, rfl, by simp⟩
      | some (d + 1) =>
          simp only [hc, hd, Option.some.injEq, Prod.mk.injEq] at h
          rw [← h.2]
          exact ⟨hm, rfl, by simp⟩
      | none =>
          simp only [hc, hd, Option.some.injEq, Prod.mk.injEq] at h
          rw [← h.2]
          exact ⟨hm, rfl, rfl⟩
  | some none =>
      simp only [hc, Option.some.injEq, Prod.mk.injEq] at h
      rw [← h.2]
      exact ⟨hm, rfl, rfl⟩
  | none =>
      simp only [hc, Option.some.injEq, Prod.mk.injEq] at h
      rw [← h.2]
      exact ⟨hm, rfl, rfl⟩

theorem deleteKeyLoop_frame {inv inv' : Inventory K S U} {key : K}
    {idxs : List Nat} {rem n : Nat}
    {r : Except (ItemError K U) (ItemInstance K U)}
    (hm : inv.move_to_front = .None)
    (h : deleteKeyLoop inv key idxs rem n = some (r, inv')) :
    inv'.move_to_front = .None ∧ inv'.sizing_mode = inv.sizing_mode ∧
      inv'.content.length = inv.content.length := by
  induction idxs generalizing inv rem with
  | nil => simp [deleteKeyLoop] at h
  | cons idx rest ih =>
      match hc : inv.content[idx]? with
      | some (some ii) =>
          simp only [deleteKeyLoop, hc] at h
          match hd : inv.delete idx (if rem ≤ ii.quantity then rem else ii.quantity) with
          | some (.ok mv, inv2) =>
              simp only [hd] at h
              obtain ⟨hm2, hs2, hl2⟩ := delete_frame hm hd
              by_cases hz : rem - (if rem ≤ ii.quantity then rem else ii.quantity) = 0
              · rw [if_pos hz] at h
                simp only [Option.some.injEq, Prod.mk.injEq] at h
                rw [← h.2]
                exact ⟨hm2, hs2, hl2⟩
              · rw [if_neg hz] at h
                obtain ⟨hm3, hs3, hl3⟩ := ih hm2 h
                exact ⟨hm3, hs3.trans hs2, hl3.trans hl2⟩
          | some (.error e, inv2) => simp only [hd] at h; exact Option.noConfusion h
          | none => simp only [hd] at h; exact Option.noConfusion h
      | some none => simp [deleteKeyLoop, hc] at h
      | none => simp [deleteKeyLoop, hc] at h

theorem delete_key_frame {inv inv' : Inventory K S U} {key : K} {n : Nat}
    {r : Except (ItemError K U) (ItemInstance K U)}
    (hm : inv.move_to_front = .None)
    (h : inv.delete_key key n = some (r, inv')) :
    inv'.move_to_front = .None ∧ inv'.sizing_mode = inv.sizing_mode ∧
      inv'.content.length = inv.content.length := by
  unfold Inventory.delete_key at h
  by_cases hq : inv.has_quantity key n = true
  · rw [if_pos hq] at h
    exact deleteKeyLoop_frame hm h
  · rw [if_neg hq] at h
    simp only [Option.some.injEq, Prod.mk.injEq] at h
    rw [← h.2]
    exact ⟨hm, rfl, rfl⟩

theorem insert_frame {inv inv' : Inventory K S U} {item : ItemInstance K U}
    {defs : ItemDefinitions K S D} {r : Except (ItemError K U) Unit}
    (hm : inv.move_to_front = .None)
    (h : inv.insert item defs = some (r, inv')) :
    inv'.move_to_front = .None ∧ inv'.sizing_mode = inv.sizing_mode ∧
      (inv'.content.length = inv.content.length ∨
        (∃ mn mx, inv.sizing_mode = .Dynamic mn mx ∧
          inv.content.length ≠ mx ∧
          inv'.content.length = inv.content.length + 1)) := by
  have hlen : (mergeLoop inv.content item defs).1.length = inv.content.length :=
    (mergeLoop_shape item defs inv.content).1
  match hsz : inv.sizing_mode with
  | .Fixed size =>
      rw [insert_none_fixed_run inv item defs size hm hsz] at h
      by_cases hq : (mergeLoop inv.content item defs).2.quantity = 0
      · rw [if_pos hq] at h
        simp only [Option.some.injEq, Prod.mk.injEq] at h
        rw [← h.2]
        exact ⟨hm, hsz, Or.inl hlen⟩
      · rw [if_neg hq] at h
        match hf : firstNoneFrom (mergeLoop inv.content item defs).1 0 with
        | some j =>
            rw [hf] at h
            simp only [Option.some.injEq, Prod.mk.injEq] at h
            rw [← h.2]
            exact ⟨hm, hsz, Or.inl (by simp [hlen])⟩
        | none =>
            rw [hf] at h
            simp only [Option.some.injEq, Prod.mk.injEq] at h
            rw [← h.2]
            exact ⟨hm, hsz, Or.inl hlen⟩
  | .Dynamic mn mx =>
      rw [insert_none_dynamic_run item defs mn mx hm hsz] at h
      by_cases hq : (mergeLoop inv.content item defs).2.quantity = 0
      · rw [if_pos hq] at h
        simp only [Option.some.injEq, Prod.mk.injEq] at h
        rw [← h.2]
        exact ⟨hm, hsz, Or.inl hlen⟩
      · rw [if_neg hq] at h
        match hf : firstNoneFrom (mergeLoop inv.content item defs).1 0 with
        | some j =>
            rw [hf] at h
            simp only [Option.some.injEq, Prod.mk.injEq] at h
            rw [← h.2]
            exact ⟨hm, hsz, Or.inl (by simp [hlen])⟩
        | none =>
            rw [hf] at h
            by_cases hl : (mergeLoop inv.content item defs).1.length ≠ mx
            · rw [if_pos hl] at h
              simp only [Option.some.injEq, Prod.mk.injEq] at h
              rw [← h.2]
              refine ⟨hm, hsz, Or.inr ⟨mn, mx, rfl, ?_, ?_⟩⟩
              · omega
              · simp [hlen]
            · rw [if_neg hl] at h
              simp only [Option.some.injEq, Prod.mk.injEq] at h
              rw [← h.2]
              exact ⟨hm, hsz, Or.inl hlen⟩

theorem transfer_frame {inv tgt inv' tgt' : Inventory K S U}
    {from_idx to_idx q : Nat} {b : Bool} {defs : ItemDefinitions K S D}
    {r : Except (ItemError K U) Unit}
    (hmi : inv.move_to_front = .None)
    (h : inv.transfer from_idx tgt to_idx q b defs = some (r, inv', tgt')) :
    (inv'.move_to_front = .None ∧ inv'.sizing_mode = inv.sizing_mode ∧
      inv'.content.length = inv.content.length) ∧
    (tgt'.move_to_front = tgt.move_to_front ∧ tgt'.sizing_mode = tgt.sizing_mode ∧
      tgt'.content.length = tgt.content.length) := by
  match hd : inv.delete from_idx q with
  | some (.ok mv, inv1) =>
      simp only [Inventory.transfer, hd] at h
      have hfr := delete_frame hmi hd
      match hi : tgt.insert_into to_idx mv defs with
      | some (.ok u, tgt1) =>
          simp only [hi, Option.some.injEq, Prod.mk.injEq] at h
          obtain ⟨-, h2, h3⟩ := h
          rw [← h2, ← h3]
          exact ⟨hfr, insert_into_frame hi⟩
      | some (.error e, tgt1) =>
          simp only [hi, Option.some.injEq, Prod.mk.injEq] at h
          obtain ⟨-, h2, h3⟩ := h
          rw [← h2, ← h3]
          exact ⟨hfr, insert_into_frame hi⟩
      | none => simp only [hi] at h; exact Option.noConfusion h
  | some (.error e, inv1) =>
      simp only [Inventory.transfer, hd, Option.some.injEq, Prod.mk.injEq] at h
      obtain ⟨-, h2, h3⟩ := h
      rw [← h2, ← h3]
      exact ⟨delete_frame hmi hd, rfl, rfl, rfl⟩
  | none => simp only [Inventory.transfer, hd] at h; exact Option.noConfusion h

theorem transfer_stack_frame {inv tgt inv' tgt' : Inventory K S U}
    {from_idx to_idx : Nat} {b : Bool} {defs : ItemDefinitions K S D}
    {r : Except (ItemError K U) Unit}
    (hmi : inv.move_to_front = .None)
    (h : inv.transfer_stack from_idx tgt to_idx b defs = some (r, inv', tgt')) :
    (inv'.move_to_front = .None ∧ inv'.sizing_mode = inv.sizing_mode ∧
      inv'.content.length = inv.content.length) ∧
    (tgt'.move_to_front = tgt.move_to_front ∧ tgt'.sizing_mode = tgt.sizing_mode ∧
      tgt'.content.length = tgt.content.length) := by
  match hc : inv.content[from_idx]? with
  | some (some ii) =>
      simp only [Inventory.transfer_stack, hc] at h
      exact transfer_frame hmi h
  | some none =>
      simp only [Inventory.transfer_stack, hc, Option.some.injEq, Prod.mk.injEq] at h
      obtain ⟨-, h2, h3⟩ := h
      rw [← h2, ← h3]
      exact ⟨⟨hmi, rfl, rfl⟩, rfl, rfl, rfl⟩
  | none =>
      simp only [Inventory.transfer_stack, hc, Option.some.injEq, Prod.mk.injEq] at h
      obtain ⟨-, h2, h3⟩ := h
      rw [← h2, ← h3]
      exact ⟨⟨hmi, rfl, rfl⟩, rfl, rfl, rfl⟩

theorem move_item_frame {inv inv' : Inventory K S U}
    {from_idx to_idx q : Nat} {b : Bool} {defs : ItemDefinitions K S D}
    {r : Except (ItemError K U) Unit}
    (hm : inv.move_to_front = .None)
    (h : inv.move_item from_idx to_idx q b defs = some (r, inv')) :
    inv'.move_to_front = .None ∧ inv'.sizing_mode = inv.sizing_mode ∧
      inv'.content.length = inv.content.length := by
  match hd : inv.delete from_idx q with
  | some (.ok mv, inv1) =>
      simp only [Inventory.move_item, hd] at h
      obtain ⟨hm1, hs1, hl1⟩ := delete_frame hm hd
      match hi : inv1.insert_into to_idx mv defs with
      | some (.ok u, inv2) =>
          simp only [hi, Option.some.injEq, Prod.mk.injEq] at h
          rw [← h.2]
          obtain ⟨hm2, hs2, hl2⟩ := insert_into_frame hi
          exact ⟨hm2.trans hm1, hs2.trans hs1, hl2.trans hl1⟩
      | some (.error e, inv2) =>
          simp only [hi, Option.some.injEq, Prod.mk.injEq] at h
          rw [← h.2]
          obtain ⟨hm2, hs2, hl2⟩ := insert_into_frame hi
          exact ⟨hm2.trans hm1, hs2.trans hs1, hl2.trans hl1⟩
      | none => simp only [hi] at h; exact Option.noConfusion h
  | some (.error e, inv1) =>
      simp only [Inventory.move_item, hd, Option.some.injEq, Prod.mk.injEq] at h
      rw [← h.2]
      exact delete_frame hm hd
  | none => simp only [Inventory.move_item, hd] at h; exact Option.noConfusion h

theorem move_stack_frame {inv inv' : Inventory K S U}
    {from_idx to_idx : Nat} {b : Bool} {defs : ItemDefinitions K S D}
    {r : Except (ItemError K U) Unit}
    (hm : inv.move_to_front = .None)
    (h : inv.move_stack from_idx to_idx b defs = some (r, inv')) :
    inv'.move_to_front = .None ∧ inv'.sizing_mode = inv.sizing_mode ∧
      inv'.content.length = inv.content.length := by
  match hc : inv.content[from_idx]? with
  | some (some ii) =>
      simp only [Inventory.move_stack, hc] at h
      exact move_item_frame hm h
  | some none =>
      simp only [Inventory.move_stack, hc, Option.some.injEq, Prod.mk.injEq] at h
      rw [← h.2]
      exact ⟨hm, rfl, rfl⟩
  | none =>
      simp only [Inventory.move_stack, hc, Option.some.injEq, Prod.mk.injEq] at h
      rw [← h.2]
      exact ⟨hm, rfl, rfl⟩

theorem lenOk_transport {inv inv' : Inventory K S U}
    (h : lenOk inv) (hs : inv'.sizing_mode = inv.sizing_mode)
    (hl : inv'.content.length = inv.content.length) : lenOk inv' := by
  unfold lenOk at h ⊢
  rw [hs, hl]
  exact h

theorem lenOk_grow {inv inv' : Inventory K S U} {mn mx : Nat}
    (h : lenOk inv) (hdyn : inv.sizing_mode = .Dynamic mn mx)
    (hs : inv'.sizing_mode = inv.sizing_mode)
    (hne : inv.content.length ≠ mx)
    (hl : inv'.content.length = inv.content.length + 1) : lenOk inv' := by
  unfold lenOk at h ⊢
  rw [hs, hl, hdyn]
  rw [hdyn] at h
  exact ⟨by omega, fun hc => by omega⟩

theorem reachable_none_lenOk {a b : Bool} {inv : Inventory K S U}
    (h : Reachable a b inv) : inv.move_to_front = .None ∧ lenOk inv := by
  induction h with
  | new_fixed count =>
      refine ⟨rfl, ?_⟩
      simp [Inventory.new_fixed, lenOk]
  | new_dynamic mn mx =>
      refine ⟨rfl, ?_⟩
      simp only [Inventory.new_dynamic, lenOk, List.length_replicate]
      exact ⟨Nat.le_refl _, fun hc => hc⟩
  | step_insert D defs item hp h hs ih =>
      obtain ⟨hm, hlen⟩ := ih
      obtain ⟨hm', hs', hl'⟩ := insert_frame hm hs
      refine ⟨hm', ?_⟩
      rcases hl' with hl | ⟨mn, mx, hdyn, hne, hl⟩
      · exact lenOk_transport hlen hs' hl
      · exact lenOk_grow hlen hdyn hs' hne hl
  | step_insert_into D defs idx item hp h hs ih =>
      obtain ⟨hm, hlen⟩ := ih
      obtain ⟨hm', hs', hl'⟩ := insert_into_frame hs
      exact ⟨hm' ▸ hm, lenOk_transport hlen hs' hl'⟩
  | step_delete idx q h hs ih =>
      obtain ⟨hm, hlen⟩ := ih
      obtain ⟨hm', hs', hl'⟩ := delete_frame hm hs
      exact ⟨hm', lenOk_transport hlen hs' hl'⟩
  | step_delete_stack idx h hs ih =>
      obtain ⟨hm, hlen⟩ := ih
      obtain ⟨hm', hs', hl'⟩ := delete_stack_frame hm hs
      exact ⟨hm', lenOk_transport hlen hs' hl'⟩
  | step_delete_key key q h hs ih =>
      obtain ⟨hm, hlen⟩ := ih
      obtain ⟨hm', hs', hl'⟩ := delete_key_frame hm hs
      exact ⟨hm', lenOk_transport hlen hs' hl'⟩
  | step_consume idx h hs ih =>
      obtain ⟨hm, hlen⟩ := ih
      obtain ⟨hm', hs', hl'⟩ := consume_frame hm hs
      exact ⟨hm', lenOk_transport hlen hs' hl'⟩
  | step_use_item idx h hs ih =>
      obtain ⟨hm, hlen⟩ := ih
      obtain ⟨hm', hs', hl'⟩ := use_item_frame hm hs
      exact ⟨hm', lenOk_transport hlen hs' hl'⟩
  | step_transfer_src D defs fi ti q b hp h1 h2 hs ih1 ih2 =>
      obtain ⟨hm1, hlen1⟩ := ih1
      obtain ⟨⟨hm', hs', hl'⟩, -⟩ := transfer_frame hm1 hs
      exact ⟨hm', lenOk_transport hlen1 hs' hl'⟩
  | step_transfer_tgt D defs fi ti q b hp h1 h2 hs ih1 ih2 =>
      obtain ⟨hm1, hlen1⟩ := ih1
      obtain ⟨hm2, hlen2⟩ := ih2
      obtain ⟨-, hm', hs', hl'⟩ := transfer_frame hm1 hs
      exact ⟨hm' ▸ hm2, lenOk_transport hlen2 hs' hl'⟩
  | step_transfer_stack_src D defs fi ti b h1 h2 hs ih1 ih2 =>
      obtain ⟨hm1, hlen1⟩ := ih1
      obtain ⟨⟨hm', hs', hl'⟩, -⟩ := transfer_stack_frame hm1 hs
      exact ⟨hm', lenOk_transport hlen1 hs' hl'⟩
  | step_transfer_stack_tgt D defs fi ti b h1 h2 hs ih1 ih2 =>
      obtain ⟨hm1, hlen1⟩ := ih1
      obtain ⟨hm2, hlen2⟩ := ih2
      obtain ⟨-, hm', hs', hl'⟩ := transfer_stack_frame hm1 hs
      exact ⟨hm' ▸ hm2, lenOk_transport hlen2 hs' hl'⟩
  | step_move_item D defs fi ti q b hp h hs ih =>
      obtain ⟨hm, hlen⟩ := ih
      obtain ⟨hm', hs', hl'⟩ := move_item_frame hm hs
      exact ⟨hm', lenOk_transport hlen hs' hl'⟩
  | step_move_stack D defs fi ti b h hs ih =>
      obtain ⟨hm, hlen⟩ := ih
      obtain ⟨hm', hs', hl'⟩ := move_stack_frame hm hs
      exact ⟨hm', lenOk_transport hlen hs' hl'⟩

/-- C3 (amended): for every inventory reachable from `new_fixed(count)`
or `new_dynamic(min, max)` by any sequence of the engine's operations,
`content.len()` equals `size` under Fixed sizing; under Dynamic sizing
it is always at least `min_size`, and it is at most `max_size` whenever
the constructor's bounds satisfy `min_size ≤ max_size`. (Removal always
preserves the slot count; growth happens only on insertion into a
Dynamic inventory whose length differs from `max_size`. `new_dynamic`
with `min > max` starts above `max_size`, hence the condition on the
upper bound alone.) -/
theorem reachable_length_invariant (a b : Bool) (inv : Inventory K S U)
    (h : Reachable a b inv) :
    (∀ size, inv.sizing_mode = .Fixed size → inv.content.length = size) ∧
    (∀ mn mx, inv.sizing_mode = .Dynamic mn mx →
      mn ≤ inv.content.length ∧ (mn ≤ mx → inv.content.length ≤ mx)) := by
  obtain ⟨-, hlen⟩ := reachable_none_lenOk h
  unfold lenOk at hlen
  constructor
  · intro size hs
    rw [hs] at hlen
    exact hlen
  · intro mn mx hs
    rw [hs] at hlen
    exact hlen

/-- Witness for C3: a fresh fixed inventory of 2 slots has exactly 2
slots, and a fresh dynamic inventory with bounds 1 and 3 starts at
least at its lower bound and within its upper bound. -/
theorem reachable_length_invariant_witness :
    (Inventory.new_fixed 2 : Inventory Nat Unit Unit).content.length = 2 ∧
    (1 ≤ (Inventory.new_dynamic 1 3 : Inventory Nat Unit Unit).content.length ∧
      (Inventory.new_dynamic 1 3 : Inventory Nat Unit Unit).content.length ≤ 3) := by
  constructor
  · exact (reachable_length_invariant false false _ (.new_fixed 2)).1 2 rfl
  · have h2 := (reachable_length_invariant false false
      (Inventory.new_dynamic 1 3 : Inventory Nat Unit Unit)
      (.new_dynamic 1 3)).2 1 3 rfl
    exact ⟨h2.1, h2.2 (by decide)⟩

theorem posContent_set {cont : List (Option (ItemInstance K U))} {i : Nat}
    {v : Option (ItemInstance K U)} (h : posContent cont)
    (hv : ∀ jj : ItemInstance K U, v = some jj → 0 < jj.quantity) :
    posContent (cont.set i v) := by
  intro j jj hj
  rw [List.getElem?_set] at hj
  by_cases hij : i = j
  · rw [if_pos hij] at hj
    by_cases hlt : i < cont.length
    · rw [if_pos hlt] at hj
      exact hv jj (Option.some.injEq .. ▸ hj)
    · rw [if_neg hlt] at hj
      exact Option.noConfusion hj
  · rw [if_neg hij] at hj
    exact h j jj hj

theorem posContent_cons {o : Option (ItemInstance K U)}
    {rest : List (Option (ItemInstance K U))} :
    posContent (o :: rest) ↔
      (∀ jj : ItemInstance K U, o = some jj → 0 < jj.quantity) ∧
        posContent rest := by
  constructor
  · intro h
    refine ⟨fun jj hjj => h 0 jj (by simp [hjj]), fun i jj hij => h (i + 1) jj ?_⟩
    simpa using hij
  · rintro ⟨h1, h2⟩ i jj hij
    match i with
    | 0 =>
        simp only [List.getElem?_cons_zero, Option.some.injEq] at hij
        exact h1 jj hij
    | i + 1 =>
        exact h2 i jj (by simpa using hij)

theorem posContent_append {cont : List (Option (ItemInstance K U))}
    {v : Option (ItemInstance K U)} (h : posContent cont)
    (hv : ∀ jj : ItemInstance K U, v = some jj → 0 < jj.quantity) :
    posContent (cont ++ [v]) := by
  intro i jj hij
  rw [List.getElem?_append] at hij
  by_cases hlt : i < cont.length
  · rw [if_pos hlt] at hij
    exact h i jj hij
  · rw [if_neg hlt] at hij
    rcases hz : i - cont.length with _ | k
    · rw [hz] at hij
      simp only [List.getElem?_cons_zero, Option.some.injEq] at hij
      exact hv jj hij
    · rw [hz] at hij
      simp at hij

theorem merge_fst_quantity_ge (a b : ItemInstance K U)
    (defs : ItemDefinitions K S D) :
    a.quantity ≤ (ItemInstance.merge a b defs).1.quantity := by
  by_cases hm : a.key = b.key ∧ a.user_data = b.user_data
  · simp only [ItemInstance.merge, if_pos hm]
    match hc : (defs.defs a.key).bind (fun dd => dd.maximum_stack) with
    | some cap => simp only [hc]; exact Nat.le_add_right _ _
    | none => simp only [hc]; exact Nat.le_add_right _ _
  · simp only [ItemInstance.merge, if_neg hm]
    exact Nat.le_refl _

theorem mergeLoop_pos (item : ItemInstance K U) (defs : ItemDefinitions K S D) :
    ∀ cont : List (Option (ItemInstance K U)),
      posContent cont → posContent (mergeLoop cont item defs).1
  | [], h => by
      intro i jj hij
      simp [mergeLoop] at hij
  | none :: rest, h => by
      simp only [mergeLoop]
      rw [posContent_cons]
      exact ⟨fun jj hjj => Option.noConfusion hjj,
        mergeLoop_pos item defs rest (posContent_cons.mp h).2⟩
  | some ii :: rest, h => by
      obtain ⟨h1, h2⟩ := posContent_cons.mp h
      by_cases hk : ii.key = item.key
      · by_cases hq : item.quantity = 0
        · simp only [mergeLoop, if_pos hk, if_pos hq]
          exact h
        · simp only [mergeLoop, if_pos hk, if_neg hq]
          rw [posContent_cons]
          refine ⟨?_, mergeLoop_pos _ defs rest h2⟩
          intro jj hjj
          have hle := merge_fst_quantity_ge ii item defs
          have hpos := h1 ii rfl
          have hjj2 : (ItemInstance.merge ii item defs).1 = jj :=
            Option.some.injEq .. ▸ hjj
          rw [← hjj2]
          omega
      · simp only [mergeLoop, if_neg hk]
        rw [posContent_cons]
        exact ⟨h1, mergeLoop_pos item defs rest h2⟩

theorem insert_into_pos {inv inv' : Inventory K S U} {idx : Nat}
    {item : ItemInstance K U} {defs : ItemDefinitions K S D}
    {r : Except (ItemError K U) Unit}
    (hpos : posContent inv.content) (hitem : 0 < item.quantity)
    (h : inv.insert_into idx item defs = some (r, inv')) :
    posContent inv'.content := by
  match hc : inv.content[idx]? with
  | some (some x) =>
      simp only [Inventory.insert_into, hc, Option.some.injEq, Prod.mk.injEq] at h
      rw [← h.2]
      exact hpos
  | some none =>
      simp only [Inventory.insert_into, hc, Option.some.injEq, Prod.mk.injEq] at h
      rw [← h.2]
      exact posContent_set hpos
        (fun jj hjj => (Option.some.injEq .. ▸ hjj) ▸ hitem)
  | none => simp [Inventory.insert_into, hc] at h

theorem delete_pos {inv inv' : Inventory K S U} {idx q : Nat}
    {r : Except (ItemError K U) (ItemInstance K U)}
    (hm : inv.move_to_front = .None) (hpos : posContent inv.content)
    (h : inv.delete idx q = some (r, inv')) :
    posContent inv'.content := by
  rw [delete_none_run idx q hm] at h
  match hc : inv.content[idx]? with
  | some (some ii) =>
      simp only [hc] at h
      by_cases hq : q ≤ ii.quantity
      · rw [if_pos hq] at h
        simp only [Option.some.injEq, Prod.mk.injEq] at h
        rw [← h.2]
        refine posContent_set hpos ?_
        intro jj hjj
        by_cases h0 : ii.quantity - q = 0
        · rw [if_pos h0] at hjj
          exact Option.noConfusion hjj
        · rw [if_neg h0] at hjj
          have : { ii with quantity := ii.quantity - q } = jj :=
            Option.some.injEq .. ▸ hjj
          rw [← this]
          exact Nat.pos_of_ne_zero h0
      · rw [if_neg hq] at h
        simp only [Option.some.injEq, Prod.mk.injEq] at h
        rw [← h.2]
        exact hpos
  | some none =>
      simp only [hc, Option.some.injEq, Prod.mk.injEq] at h
      rw [← h.2]
      exact hpos
  | none =>
      simp only [hc, Option.some.injEq, Prod.mk.injEq] at h
      rw [← h.2]
      exact hpos

theorem delete_stack_pos {inv inv' : Inventory K S U} {idx : Nat}
    {r : Except (ItemError K U) (ItemInstance K U)}
    (hm : inv.move_to_front = .None) (hpos : posContent inv.content)
    (h : inv.delete_stack idx = some (r, inv')) :
    posContent inv'.content := by
  match hc : inv.content[idx]? with
  | some (some ii) =>
      simp only [Inventory.delete_stack, hc] at h
      exact delete_pos hm hpos h
  | some none =>
      simp only [Inventory.delete_stack, hc, Option.some.injEq, Prod.mk.injEq] at h
      rw [← h.2]
      exact hpos
  | none =>
      simp only [Inventory.delete_stack, hc, Option.some.injEq, Prod.mk.injEq] at h
      rw [← h.2]
      exact hpos

theorem consume_pos {inv inv' : Inventory K S U} {idx : Nat}
    {r : Except (ItemError K U) Nat}
    (hm : inv.move_to_front = .None) (hpos : posContent inv.content)
    (h : inv.consume idx = some (r, inv')) :
    posContent inv'.content := by
  rw [consume_none_run idx hm] at h
  match hc : inv.content[idx]? with
  | some (some ii) =>
      simp only [hc] at h
      by_cases h0 : ii.quantity - 1 = 0
      · rw [if_pos h0] at h
        simp only [Option.some.injEq, Prod.mk.injEq] at h
        rw [← h.2]
        exact posContent_set hpos (fun jj hjj => Option.noConfusion hjj)
      · rw [if_neg h0] at h
        simp only [Option.some.injEq, Prod.mk.injEq] at h
        rw [← h.2]
        refine posContent_set hpos ?_
        intro jj hjj
        have : { ii with quantity := ii.quantity - 1 } = jj :=
          Option.some.injEq .. ▸ hjj
        rw [← this]
        exact Nat.pos_of_ne_zero h0
  | some none =>
      simp only [hc, Option.some.injEq, Prod.mk.injEq] at h
      rw [← h.2]
      exact hpos
  | none =>
      simp only [hc, Option.some.injEq, Prod.mk.injEq] at h
      rw [← h.2]
      exact hpos

theorem use_item_pos {inv inv' : Inventory K S U} {idx : Nat}
    {r : Except (ItemError K U) (Option Nat)}
    (hm : inv.move_to_front = .None) (hpos : posContent inv.content)
    (h : inv.use_item idx = some (r, inv')) :
    posContent inv'.content := by
  rw [use_item_none_run idx hm] at h
  match hc : inv.content[idx]? with
  | some (some ii) =>
      match hd : ii.durability with
      | some 0 =>
          simp only [hc, hd, Option.some.injEq, Prod.mk.injEq] at h
          rw [← h.2]
          exact posContent_set hpos (fun jj hjj => Option.noConfusion hjj)
      | some (d + 1) =>
          simp only [hc, hd, Option.some.injEq, Prod.mk.injEq] at h
          rw [← h.2]
          refine posContent_set hpos ?_
          intro jj hjj
          have : { ii with durability := some d } = jj :=
            Option.some.injEq .. ▸ hjj
          rw [← this]
          exact hpos idx ii hc
      | none =>
          simp only [hc, hd, Option.some.injEq, Prod.mk.injEq] at h
          rw [← h.2]
          exact hpos
  | some none =>
      simp only [hc, Option.some.injEq, Prod.mk.injEq] at h
      rw [← h.2]
      exact hpos
  | none =>
      simp only [hc, Option.some.injEq, Prod.mk.injEq] at h
      rw [← h.2]
      exact hpos

theorem deleteKeyLoop_pos {inv inv' : Inventory K S U} {key : K}
    {idxs : List Nat} {rem n : Nat}
    {r : Except (ItemError K U) (ItemInstance K U)}
    (hm : inv.move_to_front = .None) (hpos : posContent inv.content)
    (h : deleteKeyLoop inv key idxs rem n = some (r, inv')) :
    posContent inv'.content := by
  induction idxs generalizing inv rem with
  | nil => simp [deleteKeyLoop] at h
  | cons idx rest ih =>
      match hc : inv.content[idx]? with
      | some (some ii) =>
          simp only [deleteKeyLoop, hc] at h
          match hd : inv.delete idx (if rem ≤ ii.quantity then rem else ii.quantity) with
          | some (.ok mv, inv2) =>
              simp only [hd] at h
              have hm2 := (delete_frame hm hd).1
              have hp2 := delete_pos hm hpos hd
              by_cases hz : rem - (if rem ≤ ii.quantity then rem else ii.quantity) = 0
              · rw [if_pos hz] at h
                simp only [Option.some.injEq, Prod.mk.injEq] at h
                rw [← h.2]
                exact hp2
              · rw [if_neg hz] at h
                exact ih hm2 hp2 h
          | some (.error e, inv2) => simp only [hd] at h; exact Option.noConfusion h
          | none => simp only [hd] at h; exact Option.noConfusion h
      | some none => simp [deleteKeyLoop, hc] at h
      | none => simp [deleteKeyLoop, hc] at h

theorem delete_key_pos {inv inv' : Inventory K S U} {key : K} {n : Nat}
    {r : Except (ItemError K U) (ItemInstance K U)}
    (hm : inv.move_to_front = .None) (hpos : posContent inv.content)
    (h : inv.delete_key key n = some (r, inv')) :
    posContent inv'.content := by
  unfold Inventory.delete_key at h
  by_cases hq : inv.has_quantity key n = true
  · rw [if_pos hq] at h
    exact deleteKeyLoop_pos hm hpos h
  · rw [if_neg hq] at h
    simp only [Option.some.injEq, Prod.mk.injEq] at h
    rw [← h.2]
    exact hpos

theorem insert_pos {inv inv' : Inventory K S U} {item : ItemInstance K U}
    {defs : ItemDefinitions K S D} {r : Except (ItemError K U) Unit}
    (hm : inv.move_to_front = .None) (hpos : posContent inv.content)
    (h : inv.insert item defs = some (r, inv')) :
    posContent inv'.content := by
  have hml : posContent (mergeLoop inv.content item defs).1 :=
    mergeLoop_pos item defs inv.content hpos
  match hsz : inv.sizing_mode with
  | .Fixed size =>
      rw [insert_none_fixed_run inv item defs size hm hsz] at h
      by_cases hq : (mergeLoop inv.content item defs).2.quantity = 0
      · rw [if_pos hq] at h
        simp only [Option.some.injEq, Prod.mk.injEq] at h
        rw [← h.2]
        exact hml
      · rw [if_neg hq] at h
        match hf : firstNoneFrom (mergeLoop inv.content item defs).1 0 with
        | some j =>
            rw [hf] at h
            simp only [Option.some.injEq, Prod.mk.injEq] at h
            rw [← h.2]
            exact posContent_set hml (fun jj hjj =>
              (Option.some.injEq .. ▸ hjj) ▸ Nat.pos_of_ne_zero hq)
        | none =>
            rw [hf] at h
            simp only [Option.some.injEq, Prod.mk.injEq] at h
            rw [← h.2]
            exact hml
  | .Dynamic mn mx =>
      rw [insert_none_dynamic_run item defs mn mx hm hsz] at h
      by_cases hq : (mergeLoop inv.content item defs).2.quantity = 0
      · rw [if_pos hq] at h
        simp only [Option.some.injEq, Prod.mk.injEq] at h
        rw [← h.2]
        exact hml
      · rw [if_neg hq] at h
        match hf : firstNoneFrom (mergeLoop inv.content item defs).1 0 with
        | some j =>
            rw [hf] at h
            simp only [Option.some.injEq, Prod.mk.injEq] at h
            rw [← h.2]
            exact posContent_set hml (fun jj hjj =>
              (Option.some.injEq .. ▸ hjj) ▸ Nat.pos_of_ne_zero hq)
        | none =>
            rw [hf] at h
            by_cases hl : (mergeLoop inv.content item defs).1.length ≠ mx
            · rw [if_pos hl] at h
              simp only [Option.some.injEq, Prod.mk.injEq] at h
              rw [← h.2]
              exact posContent_append hml (fun jj hjj =>
                (Option.some.injEq .. ▸ hjj) ▸ Nat.pos_of_ne_zero hq)
            · rw [if_neg hl] at h
              simp only [Option.some.injEq, Prod.mk.injEq] at h
              rw [← h.2]
              exact hml

theorem transfer_pos {inv tgt inv' tgt' : Inventory K S U}
    {from_idx to_idx q : Nat} {b : Bool} {defs : ItemDefinitions K S D}
    {r : Except (ItemError K U) Unit}
    (hmi : inv.move_to_front = .None)
    (hpi : posContent inv.content) (hpt : posContent tgt.content)
    (hq : 0 < q)
    (h : inv.transfer from_idx tgt to_idx q b defs = some (r, inv', tgt')) :
    posContent inv'.content ∧ posContent tgt'.content := by
  match hd : inv.delete from_idx q with
  | some (.ok mv, inv1) =>
      simp only [Inventory.transfer, hd] at h
      have hp1 := delete_pos hmi hpi hd
      have hmv : 0 < mv.quantity := by
        rw [delete_none_run from_idx q hmi] at hd
        match hc : inv.content[from_idx]? with
        | some (some ii) =>
            simp only [hc] at hd
            by_cases hle : q ≤ ii.quantity
            · rw [if_pos hle] at hd
              simp only [Option.some.injEq, Prod.mk.injEq] at hd
              have : (⟨ii.key, q, ii.durability, (default : U)⟩ : ItemInstance K U) = mv :=
                Except.ok.injEq .. ▸ hd.1
              rw [← this]
              exact hq
            · rw [if_neg hle] at hd
              simp at hd
        | some none => simp only [hc] at hd; simp at hd
        | none => simp only [hc] at hd; simp at hd
      match hi : tgt.insert_into to_idx mv defs with
      | some (.ok u, tgt1) =>
          simp only [hi, Option.some.injEq, Prod.mk.injEq] at h
          obtain ⟨-, h2, h3⟩ := h
          rw [← h2, ← h3]
          exact ⟨hp1, insert_into_pos hpt hmv hi⟩
      | some (.error e, tgt1) =>
          simp only [hi, Option.some.injEq, Prod.mk.injEq] at h
          obtain ⟨-, h2, h3⟩ := h
          rw [← h2, ← h3]
          exact ⟨hp1, by
            match hc2 : tgt.content[to_idx]? with
            | some (some x) =>
                simp only [Inventory.insert_into, hc2, Option.some.injEq,
                  Prod.mk.injEq] at hi
                rw [← hi.2]
                exact hpt
            | some none => simp [Inventory.insert_into, hc2] at hi
            | none => simp [Inventory.insert_into, hc2] at hi⟩
      | none => simp only [hi] at h; exact Option.noConfusion h
  | some (.error e, inv1) =>
      simp only [Inventory.transfer, hd, Option.some.injEq, Prod.mk.injEq] at h
      obtain ⟨-, h2, h3⟩ := h
      rw [← h2, ← h3]
      exact ⟨delete_pos hmi hpi hd, hpt⟩
  | none => simp only [Inventory.transfer, hd] at h; exact Option.noConfusion h

theorem transfer_stack_pos {inv tgt inv' tgt' : Inventory K S U}
    {from_idx to_idx : Nat} {b : Bool} {defs : ItemDefinitions K S D}
    {r : Except (ItemError K U) Unit}
    (hmi : inv.move_to_front = .None)
    (hpi : posContent inv.content) (hpt : posContent tgt.content)
    (h : inv.transfer_stack from_idx tgt to_idx b defs = some (r, inv', tgt')) :
    posContent inv'.content ∧ posContent tgt'.content := by
  match hc : inv.content[from_idx]? with
  | some (some ii) =>
      simp only [Inventory.transfer_stack, hc] at h
      exact transfer_pos hmi hpi hpt (hpi from_idx ii hc) h
  | some none =>
      simp only [Inventory.transfer_stack, hc, Option.some.injEq, Prod.mk.injEq] at h
      obtain ⟨-, h2, h3⟩ := h
      rw [← h2, ← h3]
      exact ⟨hpi, hpt⟩
  | none =>
      simp only [Inventory.transfer_stack, hc, Option.some.injEq, Prod.mk.injEq] at h
      obtain ⟨-, h2, h3⟩ := h
      rw [← h2, ← h3]
      exact ⟨hpi, hpt⟩

theorem move_item_pos {inv inv' : Inventory K S U}
    {from_idx to_idx q : Nat} {b : Bool} {defs : ItemDefinitions K S D}
    {r : Except (ItemError K U) Unit}
    (hm : inv.move_to_front = .None) (hpos : posContent inv.content)
    (hq : 0 < q)
    (h : inv.move_item from_idx to_idx q b defs = some (r, inv')) :
    posContent inv'.content := by
  match hd : inv.delete from_idx q with
  | some (.ok mv, inv1) =>
      simp only [Inventory.move_item, hd] at h
      have hp1 := delete_pos hm hpos hd
      have hmv : 0 < mv.quantity := by
        rw [delete_none_run from_idx q hm] at hd
        match hc : inv.content[from_idx]? with
        | some (some ii) =>
            simp only [hc] at hd
            by_cases hle : q ≤ ii.quantity
            · rw [if_pos hle] at hd
              simp only [Option.some.injEq, Prod.mk.injEq] at hd
              have : (⟨ii.key, q, ii.durability, (default : U)⟩ : ItemInstance K U) = mv :=
                Except.ok.injEq .. ▸ hd.1
              rw [← this]
              exact hq
            · rw [if_neg hle] at hd
              simp at hd
        | some none => simp only [hc] at hd; simp at hd
        | none => simp only [hc] at hd; simp at hd
      match hi : inv1.insert_into to_idx mv defs with
      | some (.ok u, inv2) =>
          simp only [hi, Option.some.injEq, Prod.mk.injEq] at h
          rw [← h.2]
          exact insert_into_pos hp1 hmv hi
      | some (.error e, inv2) =>
          simp only [hi, Option.some.injEq, Prod.mk.injEq] at h
          rw [← h.2]
          match hc2 : inv1.content[to_idx]? with
          | some (some x) =>
              simp only [Inventory.insert_into, hc2, Option.some.injEq,
                Prod.mk.injEq] at hi
              rw [← hi.2]
              exact hp1
          | some none => simp [Inventory.insert_into, hc2] at hi
          | none => simp [Inventory.insert_into, hc2] at hi
      | none => simp only [hi] at h; exact Option.noConfusion h
  | some (.error e, inv1) =>
      simp only [Inventory.move_item, hd, Option.some.injEq, Prod.mk.injEq] at h
      rw [← h.2]
      exact delete_pos hm hpos hd
  | none => simp only [Inventory.move_item, hd] at h; exact Option.noConfusion h

theorem move_stack_pos {inv inv' : Inventory K S U}
    {from_idx to_idx : Nat} {b : Bool} {defs : ItemDefinitions K S D}
    {r : Except (ItemError K U) Unit}
    (hm : inv.move_to_front = .None) (hpos : posContent inv.content)
    (h : inv.move_stack from_idx to_idx b defs = some (r, inv')) :
    posContent inv'.content := by
  match hc : inv.content[from_idx]? with
  | some (some ii) =>
      simp only [Inventory.move_stack, hc] at h
      exact move_item_pos hm hpos (hpos from_idx ii hc) h
  | some none =>
      simp only [Inventory.move_stack, hc, Option.some.injEq, Prod.mk.injEq] at h
      rw [← h.2]
      exact hpos
  | none =>
      simp only [Inventory.move_stack, hc, Option.some.injEq, Prod.mk.injEq] at h
      rw [← h.2]
      exact hpos

theorem reachable_none_pos {inv : Inventory K S U}
    (h : Reachable true true inv) :
    inv.move_to_front = .None ∧ posContent inv.content := by
  induction h with
  | new_fixed count =>
      refine ⟨rfl, ?_⟩
      intro i ii hslot
      simp only [Inventory.new_fixed] at hslot
      rcases List.getElem?_eq_some_iff.mp hslot with ⟨hl, hv⟩
      rw [List.getElem_replicate] at hv
      exact Option.noConfusion hv
  | new_dynamic mn mx =>
      refine ⟨rfl, ?_⟩
      intro i ii hslot
      simp only [Inventory.new_dynamic] at hslot
      rcases List.getElem?_eq_some_iff.mp hslot with ⟨hl, hv⟩
      rw [List.getElem_replicate] at hv
      exact Option.noConfusion hv
  | step_insert D defs item hp h hs ih =>
      exact ⟨(insert_frame ih.1 hs).1, insert_pos ih.1 ih.2 hs⟩
  | step_insert_into D defs idx item hp h hs ih =>
      exact ⟨(insert_into_frame hs).1 ▸ ih.1,
        insert_into_pos ih.2 (hp rfl) hs⟩
  | step_delete idx q h hs ih =>
      exact ⟨(delete_frame ih.1 hs).1, delete_pos ih.1 ih.2 hs⟩
  | step_delete_stack idx h hs ih =>
      exact ⟨(delete_stack_frame ih.1 hs).1, delete_stack_pos ih.1 ih.2 hs⟩
  | step_delete_key key q h hs ih =>
      exact ⟨(delete_key_frame ih.1 hs).1, delete_key_pos ih.1 ih.2 hs⟩
  | step_consume idx h hs ih =>
      exact ⟨(consume_frame ih.1 hs).1, consume_pos ih.1 ih.2 hs⟩
  | step_use_item idx h hs ih =>
      exact ⟨(use_item_frame ih.1 hs).1, use_item_pos ih.1 ih.2 hs⟩
  | step_transfer_src D defs fi ti q b hp h1 h2 hs ih1 ih2 =>
      exact ⟨(transfer_frame ih1.1 hs).1.1,
        (transfer_pos ih1.1 ih1.2 ih2.2 (hp rfl) hs).1⟩
  | step_transfer_tgt D defs fi ti q b hp h1 h2 hs ih1 ih2 =>
      exact ⟨(transfer_frame ih1.1 hs).2.1 ▸ ih2.1,
        (transfer_pos ih1.1 ih1.2 ih2.2 (hp rfl) hs).2⟩
  | step_transfer_stack_src D defs fi ti b h1 h2 hs ih1 ih2 =>
      exact ⟨(transfer_stack_frame ih1.1 hs).1.1,
        (transfer_stack_pos ih1.1 ih1.2 ih2.2 hs).1⟩
  | step_transfer_stack_tgt D defs fi ti b h1 h2 hs ih1 ih2 =>
      exact ⟨(transfer_stack_frame ih1.1 hs).2.1 ▸ ih2.1,
        (transfer_stack_pos ih1.1 ih1.2 ih2.2 hs).2⟩
  | step_move_item D defs fi ti q b hp h hs ih =>
      exact ⟨(move_item_frame ih.1 hs).1, move_item_pos ih.1 ih.2 (hp rfl) hs⟩
  | step_move_stack D defs fi ti b h hs ih =>
      exact ⟨(move_stack_frame ih.1 hs).1, move_stack_pos ih.1 ih.2 hs⟩

/-- C4 (amended): over the inventories reachable with every stack handed
to `insert`/`insert_into` of positive quantity and every
`transfer`/`move_item` quantity argument positive, no occupied slot ever
holds a stack of quantity 0: every operation that zeroes a stack removes
its slot before returning. (Without the positivity of the
`transfer`/`move_item` quantity argument the claim fails: a transfer of
quantity 0 deposits a zero-quantity stack into the target slot.) -/
theorem reachable_positive_quantities (inv : Inventory K S U)
    (h : Reachable true true inv) (i : Nat) (ii : ItemInstance K U)
    (hslot : inv.content[i]? = some (some ii)) : 0 < ii.quantity :=
  (reachable_none_pos h).2 i ii hslot

/-- Witness for C4: after inserting a stack of 5 into a fresh fixed
inventory, the stack occupying slot 0 has positive quantity. -/
theorem reachable_positive_quantities_witness :
    0 < (⟨1, 5, none, ()⟩ : ItemInstance Nat Unit).quantity :=
  reachable_positive_quantities
    (⟨[some ⟨1, 5, none, ()⟩], List.replicate 1 none, .None, .Fixed 1⟩ :
      Inventory Nat Unit Unit)
    (.step_insert Unit emptyDefs ⟨1, 5, none, ()⟩ (fun _ => by decide)
      (.new_fixed 1) rfl)
    0 ⟨1, 5, none, ()⟩ rfl
